import Mathlib

/-!
Verification of the zero-copy lexical and parsing layer of svg2b2d.

The C++ sources (src/bspan.h, src/bspanutil.h, src/xmlscan.h,
src/pathbuilder.h, src/svgtypes.h, src/svgutils.h) are shallowly embedded
here.  A C++ `ByteSpan` is a pair of pointers into a caller-owned buffer;
we model it as a backing buffer (a list of byte values) together with two
indices.  A raw pointer dereference at index `i` reads `buf.getD i 0`:
positions past the end of the modelled buffer read as `0`, matching the
NUL terminator of the C-string buffers the program scans (several routines
in the source deliberately or accidentally read one byte past the current
span, so the model must be able to express those reads).  `double` is
modelled by the exact rational type `Q` defined below; every concrete
value appearing in the claims (10, 20, 100, 1/2, ...) is exactly
representable in IEEE double, so the rational model is exact on all
inputs the theorems below evaluate.
-/

namespace Svg2b2d

/-- Bytes of an ASCII string, used to build concrete test buffers. -/
def strBytes (s : String) : List Nat := s.data.map Char.toNat

/-- Model of `ByteSpan` (src/bspan.h): a view `[s, e)` into a backing
buffer `buf`.  `buf` is the whole addressable region the span points
into, so a sub-span keeps the full buffer and only narrows `[s, e)`. -/
structure ByteSpan where
  buf : List Nat
  s : Nat
  e : Nat
deriving Repr, DecidableEq

/-- Raw pointer read at absolute index `i`; out-of-buffer reads give `0`
(the NUL terminator of the C strings being scanned). -/
def byteAt (buf : List Nat) (i : Nat) : Nat := buf.getD i 0

/-- Model of `chunk_size` as the C++ `size_t` subtraction `fEnd - fStart`:
when `fStart` has been pushed past `fEnd` the unsigned difference wraps
around to a huge value. -/
def ByteSpan.szT (a : ByteSpan) : Nat :=
  if a.s ≤ a.e then a.e - a.s else 2 ^ 64 - (a.s - a.e)

/-- Model of `ByteSpan::operator bool`: the signed comparison
`(fEnd - fStart) > 0`. -/
def ByteSpan.isTrue (a : ByteSpan) : Bool := a.s < a.e

/-- Model of `ByteSpan::operator*`: returns the current byte, or the
sentinel `0` when the span tests empty. -/
def ByteSpan.star (a : ByteSpan) : Nat :=
  if a.s < a.e then byteAt a.buf a.s else 0

/-- Model of `chunk_skip(dc, n)` for `n ≥ 0`: clamps `n` to `szT`. -/
def ByteSpan.skip (a : ByteSpan) (n : Nat) : ByteSpan :=
  { a with s := a.s + min n a.szT }

/-- Model of `ByteSpan::operator++` (`chunk_skip` by one). -/
def ByteSpan.inc (a : ByteSpan) : ByteSpan := a.skip 1

/-- Bytes visible through a span, for stating expected results. -/
def spanBytes (a : ByteSpan) : List Nat := (a.buf.drop a.s).take (a.e - a.s)

/-- A whole-buffer span over the bytes of an ASCII string. -/
def strSpan (s : String) : ByteSpan := ⟨strBytes s, 0, (strBytes s).length⟩

/-! ### Character sets (src/bspanutil.h `charset`, and the sets the
parsers build).  A `charset` is a 256-entry membership table; we model
each concrete set as a `Nat → Bool` function on byte values. -/

/-- The whitespace set `wspChars(" \r\n\t\f\v")`. -/
def wspChars (c : Nat) : Bool :=
  c = 32 || c = 13 || c = 10 || c = 9 || c = 12 || c = 11

/-- The digit set `digitChars("0123456789")`. -/
def digitChars (c : Nat) : Bool := 48 ≤ c && c ≤ 57

/-! ### Bounded scanning loops.
Every `while (ptr < end && P(*ptr)) ++ptr` loop in the source is modelled
by a helper that counts down the (exact) number of remaining positions,
so that the definitions reduce by ordinary structural recursion. -/

/-- Advance `i` while the byte satisfies `p`, for at most `n` steps.
With `n = e - i` this is exactly `while (i < e && p(buf[i])) ++i`. -/
def skipWhileN (buf : List Nat) (p : Nat → Bool) : Nat → Nat → Nat
  | 0, i => i
  | n + 1, i => if p (byteAt buf i) then skipWhileN buf p n (i + 1) else i

/-- Retreat `e` while the byte before it satisfies `p`, for at most `n`
steps.  With `n = e - s` this is `while (s < e && p(buf[e-1])) --e`. -/
def shrinkWhileN (buf : List Nat) (p : Nat → Bool) : Nat → Nat → Nat
  | 0, e => e
  | n + 1, e => if p (byteAt buf (e - 1)) then shrinkWhileN buf p n (e - 1) else e

/-- Model of `chunk_ltrim(a, skippable)`. -/
def chunk_ltrim (a : ByteSpan) (p : Nat → Bool) : ByteSpan :=
  { a with s := skipWhileN a.buf p (a.e - a.s) a.s }

/-- Model of `chunk_rtrim(a, skippable)`. -/
def chunk_rtrim (a : ByteSpan) (p : Nat → Bool) : ByteSpan :=
  { a with e := shrinkWhileN a.buf p (a.e - a.s) a.e }

/-- Model of `chunk_trim(a, skippable)`: drop matching bytes on both
sides (the left scan runs first, then the right scan from the new start). -/
def chunk_trim (a : ByteSpan) (p : Nat → Bool) : ByteSpan :=
  let s' := skipWhileN a.buf p (a.e - a.s) a.s
  { a with s := s', e := shrinkWhileN a.buf p (a.e - s') a.e }

/-- Model of `chunk_skip_wsp(a)`. -/
def chunk_skip_wsp (a : ByteSpan) : ByteSpan := chunk_ltrim a wspChars

/-- First index `i ∈ [i₀, i₀+n]` whose byte is in `d`, scanning forward;
with `n = e - i₀` this is the `tokenEnd` scan of `chunk_token`. -/
def findTokN (buf : List Nat) (d : Nat → Bool) : Nat → Nat → Nat
  | 0, i => i
  | n + 1, i => if d (byteAt buf i) then i else findTokN buf d n (i + 1)

/-- Model of `chunk_token(a, delims)` (src/bspanutil.h).  Returns the
token together with the mutated input span.  Note the source checks
`delims(*tokenEnd)` again after the scan loop, which reads the byte AT
`a.e` (one past the span) when no delimiter was found inside the span;
when that byte happens to be a delimiter the mutated span's start is
pushed to `a.e + 1`. -/
def chunk_token (a : ByteSpan) (d : Nat → Bool) : ByteSpan × ByteSpan :=
  let t := findTokN a.buf d (a.e - a.s) a.s
  (⟨a.buf, a.s, t⟩,
   ⟨a.buf, if d (byteAt a.buf t) then t + 1 else t, a.e⟩)

/-- Model of `chunk_find_char(a, c)`: the sub-span from the first
occurrence of `c` (or the empty span at the end) to `a.e`. -/
def chunk_find_char (a : ByteSpan) (c : Nat) : ByteSpan :=
  { a with s := skipWhileN a.buf (fun b => !(b = c)) (a.e - a.s) a.s }

/-- Model of `chunk_subchunk(a, startAt, sz)`. -/
def chunk_subchunk (a : ByteSpan) (startAt sz : Nat) : ByteSpan :=
  if startAt < a.e - a.s then
    let st := a.s + startAt
    if st + sz < a.e then ⟨a.buf, st, st + sz⟩ else ⟨a.buf, st, a.e⟩
  else ⟨a.buf, a.e, a.e⟩

/-- Model of `chunk_is_equal(a, b)`: sizes equal and bytes equal. -/
def chunk_is_equal (a b : ByteSpan) : Bool :=
  spanBytes a = spanBytes b && (a.e - a.s) = (b.e - b.s)

/-- Model of `chunk_starts_with_cstr(a, b)`:
`chunk_is_equal(chunk_subchunk(a, 0, strlen b), fromCstr b)`. -/
def chunk_starts_with_cstr (a : ByteSpan) (b : String) : Bool :=
  chunk_is_equal (chunk_subchunk a 0 (strBytes b).length) (strSpan b)

/-- Model of `chunk_ends_with_char(a, b)`. -/
def chunk_ends_with_char (a : ByteSpan) (b : Nat) : Bool :=
  0 < a.e - a.s && byteAt a.buf (a.e - 1) = b

end Svg2b2d

namespace Svg2b2d

/-! ### Exact rational model of `double`.
Mathlib's `Q` arithmetic does not reduce inside the kernel, so the
embedding uses its own normalised-fraction type `Q` with
kernel-computable operations.  Every numeric value the claims evaluate
(small integers, halves, tenths) is exactly representable in IEEE
double, and the arithmetic the evaluated code paths perform on them is
exact in double as well, so the rational model agrees with the C++
semantics on those inputs. -/

/-- A rational number as a normalised fraction: for every value built by
the operations below, `d` is positive and `gcd |n| d = 1`, so structural
equality coincides with value equality. -/
structure Q where
  n : ℤ
  d : ℕ
deriving Repr, DecidableEq

/-- The canonical representative of `n / d` for `d ≠ 0` (the `d = 0`
branch is unreachable in the embedding: every divisor is a positive
power of ten or a nonzero parsed value). -/
def Q.mk' (n : ℤ) (d : ℕ) : Q :=
  if d = 0 then ⟨0, 1⟩
  else
    let g := Nat.gcd n.natAbs d
    ⟨n / g, d / g⟩

instance (k : Nat) : OfNat Q k := ⟨⟨k, 1⟩⟩
instance : NatCast Q := ⟨fun k => ⟨k, 1⟩⟩
instance : IntCast Q := ⟨fun k => ⟨k, 1⟩⟩

def Q.add (a b : Q) : Q := Q.mk' (a.n * b.d + b.n * a.d) (a.d * b.d)
def Q.neg (a : Q) : Q := ⟨-a.n, a.d⟩
def Q.sub (a b : Q) : Q := a.add b.neg
def Q.mul (a b : Q) : Q := Q.mk' (a.n * b.n) (a.d * b.d)

/-- Division; the divisor's sign moves to the numerator. -/
def Q.div (a b : Q) : Q :=
  if b.n < 0 then Q.mk' (-(a.n * b.d)) (a.d * b.n.natAbs)
  else Q.mk' (a.n * b.d) (a.d * b.n.natAbs)

instance : Add Q := ⟨Q.add⟩
instance : Neg Q := ⟨Q.neg⟩
instance : Sub Q := ⟨Q.sub⟩
instance : Mul Q := ⟨Q.mul⟩
instance : Div Q := ⟨Q.div⟩

def Q.powNat (a : Q) : ℕ → Q
  | 0 => 1
  | k + 1 => Q.powNat a k * a

instance : HPow Q ℕ Q := ⟨Q.powNat⟩

/-- Integer power, for the exponent step `res *= pow(10.0, ±e)`. -/
def Q.zpow (a : Q) (z : ℤ) : Q :=
  match z with
  | .ofNat k => a.powNat k
  | .negSucc k => (1 : Q) / a.powNat (k + 1)

instance : LT Q := ⟨fun a b => a.n * b.d < b.n * a.d⟩

instance (a b : Q) : Decidable (a < b) :=
  inferInstanceAs (Decidable (a.n * b.d < b.n * a.d))

/-- The value of a `Q` as a Mathlib rational. -/
def Q.toRat (a : Q) : ℚ := (a.n : ℚ) / (a.d : ℚ)

end Svg2b2d

namespace Svg2b2d

/-! ### Numeric scanning (src/bspanutil.h) -/

/-- Loop body of `chunk_to_u64`: `v = v * 10 + (*s - '0')` on `uint64_t`,
i.e. modulo `2^64`; advances while the current byte is a digit. -/
def u64Loop (buf : List Nat) : Nat → Nat → Nat → Nat × Nat
  | 0, i, v => (v, i)
  | n + 1, i, v =>
    if digitChars (byteAt buf i) then
      u64Loop buf n (i + 1) ((v * 10 + (byteAt buf i - 48)) % 2 ^ 64)
    else (v, i)

/-- Model of `chunk_to_u64(s)`: consumes leading digits, returns the
accumulated `uint64_t` value and the mutated span. -/
def chunk_to_u64 (a : ByteSpan) : Nat × ByteSpan :=
  let (v, i) := u64Loop a.buf (a.e - a.s) a.s 0
  (v, { a with s := i })

/-- The sign step shared by `scanNumber`'s mantissa and exponent:
`if (*s == '-' || *s == '+') s++`. -/
def scanSignPhase (s : ByteSpan) : ByteSpan :=
  if s.star = 43 || s.star = 45 then s.inc else s

/-- A digit-consuming block `while (s && digitChars[*s]) s++`, i.e. a
left trim by the digit set. -/
def scanDigitsPhase (s : ByteSpan) : ByteSpan := chunk_ltrim s digitChars

/-- The decimal-point-and-fraction block of `scanNumber`. -/
def scanFracPhase (s : ByteSpan) : ByteSpan :=
  if s.star = 46 then scanDigitsPhase s.inc else s

/-- The exponent block of `scanNumber`; the guard is
`(*s == 'e' || *s == 'E') && (s[1] != 'm' && s[1] != 'x')`, where `s[1]`
is a raw read of the byte after the cursor (even one past the span's
end). -/
def scanExpPhase (s : ByteSpan) : ByteSpan :=
  if (s.star = 101 || s.star = 69) &&
     !(byteAt s.buf (s.s + 1) = 109) && !(byteAt s.buf (s.s + 1) = 120) then
    scanDigitsPhase (scanSignPhase s.inc)
  else s

/-- Model of `scanNumber(inChunk, numchunk)` (src/bspanutil.h): sign,
integer part, optional fraction, optional exponent (unless it is the
start of an `em`/`ex` unit suffix).  Returns `(remainder, numchunk)`.
The source sets `numchunk.fEnd = s.fStart` after every consumed byte, so
the captured chunk always runs from `inChunk.fStart` to the final
cursor. -/
def scanNumber (inChunk : ByteSpan) : ByteSpan × ByteSpan :=
  let s4 := scanExpPhase (scanFracPhase (scanDigitsPhase (scanSignPhase inChunk)))
  (s4, ⟨inChunk.buf, inChunk.s, s4.s⟩)

/-- Model of `chunk_to_double(s)` (src/bspanutil.h), with `double`
modelled as an exact rational.  Returns the parsed value and the mutated span.  All
arithmetic the claims evaluate is exact in IEEE double as well. -/
def chunk_to_double (s0 : ByteSpan) : Q × ByteSpan :=
  -- optional sign
  let (sign, s1) : Q × ByteSpan :=
    if s0.star = 43 then (1, s0.inc)
    else if s0.star = 45 then (-1, s0.inc) else (1, s0)
  -- integer part
  let (res, hasIntPart, s2) : Q × Bool × ByteSpan :=
    if digitChars s1.star then
      let (ip, s') := chunk_to_u64 s1
      ((ip : Q), true, s')
    else (0, false, s1)
  -- fractional part
  let (res, hasFracPart, s3) : Q × Bool × ByteSpan :=
    if s2.star = 46 then
      let sDot := s2.inc
      let sentinel := sDot.s
      if digitChars sDot.star then
        let (fp, s') := chunk_to_u64 sDot
        (res + (fp : Q) / 10 ^ (s'.s - sentinel), true, s')
      else (res, false, sDot)
    else (res, false, s2)
  if !hasIntPart && !hasFracPart then (0, s3)
  else
    -- optional exponent
    let (res, s4) : Q × ByteSpan :=
      if s3.star = 101 || s3.star = 69 then
        let sE := s3.inc
        let (expSign, sS) : ℤ × ByteSpan :=
          if sE.star = 43 then (1, sE.inc)
          else if sE.star = 45 then (-1, sE.inc) else (1, sE)
        if digitChars sS.star then
          let (ep, s') := chunk_to_u64 sS
          (res * Q.zpow 10 (expSign * (ep : ℤ)), s')
        else (res, sS)
      else (res, s3)
    (res * sign, s4)

/-- Model of `toNumber(inChunk)`: `chunk_to_double` on a copy. -/
def toNumber (a : ByteSpan) : Q := (chunk_to_double a).1

/-- Model of `nextNumber(inChunk, delims)`: left-trim whitespace, take
the next token, parse it as a double; returns the value and the mutated
span. -/
def nextNumber (a : ByteSpan) (delims : Nat → Bool) : Q × ByteSpan :=
  let a1 := chunk_ltrim a wspChars
  let (numChunk, a2) := chunk_token a1 delims
  ((chunk_to_double numChunk).1, a2)

end Svg2b2d

namespace Svg2b2d

/-! ### Repeated tokenization (the `while (s) chunk_token(s, d)` pattern,
e.g. `chunk_split` in src/bspanutil.h).  The count argument bounds the
number of iterations; `tokenList` supplies a bound that is always
sufficient because every iteration strictly advances the span start. -/

/-- At most `n` iterations of `while (a) { push(chunk_token(a, d)) }`. -/
def tokenListN (d : Nat → Bool) : Nat → ByteSpan → List ByteSpan
  | 0, _ => []
  | n + 1, a =>
    if a.isTrue then
      (chunk_token a d).1 :: tokenListN d n (chunk_token a d).2
    else []

/-- The full token list of a span: the loop runs at most `size + 1`
times since each call to `chunk_token` strictly advances the start. -/
def tokenList (a : ByteSpan) (d : Nat → Bool) : List ByteSpan :=
  tokenListN d (a.e - a.s + 1) a

end Svg2b2d

namespace Svg2b2d

/-! ### SVG path tokenization and building (src/pathbuilder.h) -/

/-- The path whitespace set `",\t\n\f\r "` (note: includes the comma,
excludes `\v`). -/
def pathWsp (c : Nat) : Bool :=
  c = 44 || c = 9 || c = 10 || c = 12 || c = 13 || c = 32

/-- The path command-letter set `"mMlLhHvVcCqQsStTaAzZ"`. -/
def commandChars (c : Nat) : Bool :=
  c = 109 || c = 77 || c = 108 || c = 76 || c = 104 || c = 72 ||
  c = 118 || c = 86 || c = 99 || c = 67 || c = 113 || c = 81 ||
  c = 115 || c = 83 || c = 116 || c = 84 || c = 97 || c = 65 ||
  c = 122 || c = 90

/-- The number-leading set `"0123456789.+-"`. -/
def leadingChars (c : Nat) : Bool :=
  digitChars c || c = 46 || c = 43 || c = 45

/-- Model of `PathSegment`: a command byte (the `SegmentKind` enum value
is the command letter's code) and its numbers. -/
structure PathSegment where
  fCommand : Nat
  fNumbers : List Q
deriving Repr, DecidableEq

/-- State of the `tokenizePath` scan loop: the cursor and the segment
vector built so far. -/
structure TokState where
  s : ByteSpan
  cmds : List PathSegment
deriving Repr, DecidableEq

/-- Outcome of one iteration of the `while (s)` loop in `tokenizePath`. -/
inductive TokOut where
  /-- The loop guard failed: the scan is finished. -/
  | done (cmds : List PathSegment)
  /-- The body ran and the loop continues with this state. -/
  | next (st : TokState)
  /-- The body reached `commands.back()` with an empty vector
  (undefined behaviour in the source). -/
  | backErr
deriving Repr, DecidableEq

/-- One iteration of the `tokenizePath` scan loop (src/pathbuilder.h):
check the `while (s)` guard, skip whitespace, then either start a new
segment on a command letter, scan a number and append it to the last
segment on a number-leading byte, or fall through leaving the cursor
unchanged (the source has no else branch, so any other byte stalls the
loop). -/
def tokStep (st : TokState) : TokOut :=
  if !st.s.isTrue then .done st.cmds
  else
    -- ignore leading whitespace
    let s1 : ByteSpan := chunk_ltrim st.s pathWsp
    if commandChars s1.star then
      .next ⟨s1.inc, st.cmds ++ [⟨s1.star, []⟩]⟩
    else if leadingChars s1.star then
      let (s', numChunk) := scanNumber s1
      if numChunk.isTrue then
        match st.cmds.getLast? with
        | none => .backErr
        | some last =>
          .next ⟨s', st.cmds.dropLast ++ [{ last with fNumbers := last.fNumbers ++ [toNumber numChunk] }]⟩
      else .next ⟨s', st.cmds⟩
    else .next ⟨s1, st.cmds⟩

/-- Result of running the `tokenizePath` loop with bounded fuel. -/
inductive TokRes where
  | ok (cmds : List PathSegment)
  | backErr
  | fuelOut
deriving Repr, DecidableEq

/-- Run at most `fuel` iterations of the `tokenizePath` loop. -/
def tokRun : Nat → TokState → TokRes
  | 0, _ => .fuelOut
  | fuel + 1, st =>
    match tokStep st with
    | .done cmds => .ok cmds
    | .backErr => .backErr
    | .next st' => tokRun fuel st'

/-- Model of `tokenizePath(chunk, commands)` with the fuel bound
`size + 2`; on inputs where the loop terminates this is enough fuel (each
iteration then strictly advances the cursor), and on stalling inputs the
result is `fuelOut`. -/
def tokenizePathF (chunk : ByteSpan) : TokRes :=
  tokRun (chunk.e - chunk.s + 2) ⟨chunk, []⟩

end Svg2b2d

namespace Svg2b2d

/-! ### The path builder (src/pathbuilder.h `PathBuilder`).
`BLPath` is the blend2d path sink; we model it as the list of drawing
primitives issued to it, which is what the claims are about. -/

/-- One drawing primitive issued to the `BLPath` working path. -/
inductive PathOp where
  | moveTo (x y : Q)
  | lineTo (x y : Q)
  | quadTo (c1x c1y x y : Q)
  | smoothQuadTo (x y : Q)
  | cubicTo (c1x c1y c2x c2y x y : Q)
  | smoothCubicTo (c1x c1y x y : Q)
  | ellipticArcTo (rx ry rot : Q) (larc swp : Bool) (x y : Q)
  | close
deriving Repr, DecidableEq

/-- The endpoint a primitive leaves the pen at (`none` for `close`,
which carries no vertex of its own). -/
def PathOp.endPoint : PathOp → Option (Q × Q)
  | .moveTo x y => some (x, y)
  | .lineTo x y => some (x, y)
  | .quadTo _ _ x y => some (x, y)
  | .smoothQuadTo x y => some (x, y)
  | .cubicTo _ _ _ _ x y => some (x, y)
  | .smoothCubicTo _ _ x y => some (x, y)
  | .ellipticArcTo _ _ _ _ _ x y => some (x, y)
  | .close => none

/-- Scan a reversed op list for the most recent `moveTo` (the subpath
start), mirroring blend2d's backward scan in `getLastVertex` when the
last command is a close. -/
def lastMoveRev : List PathOp → Q × Q
  | [] => (0, 0)
  | .moveTo x y :: _ => (x, y)
  | _ :: rest => lastMoveRev rest

/-- Model of `PathBuilder::lastPosition` /
`BLPath::getLastVertex` (an external blend2d capability; per the spec it
must reflect the true current point after every call, including after
`close()`, which returns to the subpath start).  Empty path gives the
default `BLPoint{}` = (0,0). -/
def lastPosition (ops : List PathOp) : Q × Q :=
  match ops.reverse with
  | [] => (0, 0)
  | .close :: rest => lastMoveRev rest
  | op :: _ => (op.endPoint).getD (0, 0)

/-- `nums[i]` of a `std::vector<double>`; the source indexes one past the
vector's size when a segment carries an odd number count — that read is
undefined behaviour in C++ and modelled as `0` here (no claim exercises
it). -/
def numAt (nums : List Q) (i : Nat) : Q := nums.getD i 0

/-- Consecutive pairs of a number list: the extension loop
`for (i = k; i < n; i += 2)` visits exactly the pairs of `nums.drop k`. -/
def pairs2 : List Q → List (Q × Q)
  | x :: y :: rest => (x, y) :: pairs2 rest
  | [x] => [(x, 0)]
  | [] => []

/-- Consecutive 4-tuples (stride-4 extension loops). -/
def tuples4 : List Q → List (Q × Q × Q × Q)
  | a :: b :: c :: d :: rest => (a, b, c, d) :: tuples4 rest
  | [] => []
  | l => [(numAt l 0, numAt l 1, numAt l 2, numAt l 3)]

/-- Consecutive 6-tuples (stride-6 extension loops). -/
def tuples6 : List Q → List (Q × Q × Q × Q × Q × Q)
  | a :: b :: c :: d :: e :: f :: rest => (a, b, c, d, e, f) :: tuples6 rest
  | [] => []
  | l => [(numAt l 0, numAt l 1, numAt l 2, numAt l 3, numAt l 4, numAt l 5)]

/-- Consecutive 7-tuples (stride-7 extension loops). -/
def tuples7 : List Q → List (Q × Q × Q × Q × Q × Q × Q)
  | a :: b :: c :: d :: e :: f :: g :: rest => (a, b, c, d, e, f, g) :: tuples7 rest
  | [] => []
  | l => [(numAt l 0, numAt l 1, numAt l 2, numAt l 3, numAt l 4, numAt l 5, numAt l 6)]

/-- `radians(a)` (src/svgutils.h): `a * 0.017453292519943295`. -/
def radians (a : Q) : Q := a * (17453292519943295 / 1000000000000000000)

end Svg2b2d

namespace Svg2b2d

/-! ### `PathBuilder` methods.  Each takes the current working-path op
list and a segment, and returns the extended op list.  `finishSegment()`
is virtual and empty in `PathBuilder` itself (the class used by
`blPathFromSegments`), so it contributes nothing here. -/

/-- `PathBuilder::moveTo` (SVG `M`): reject when fewer than 2 numbers;
otherwise a `moveTo` followed by implicit absolute `lineTo`s for the
extra coordinate pairs. -/
def builderMoveTo (path : List PathOp) (cmd : PathSegment) : List PathOp :=
  if cmd.fNumbers.length < 2 then path
  else
    let p1 := path ++ [.moveTo (numAt cmd.fNumbers 0) (numAt cmd.fNumbers 1)]
    p1 ++ (pairs2 (cmd.fNumbers.drop 2)).map (fun pr => .lineTo pr.1 pr.2)

/-- `PathBuilder::moveBy` (SVG `m`): relative move; the extension
`lineTo`s re-read `lastPosition()` after every emitted op. -/
def builderMoveBy (path : List PathOp) (cmd : PathSegment) : List PathOp :=
  if cmd.fNumbers.length < 2 then path
  else
    let lp := lastPosition path
    let p1 := path ++ [.moveTo (lp.1 + numAt cmd.fNumbers 0) (lp.2 + numAt cmd.fNumbers 1)]
    (pairs2 (cmd.fNumbers.drop 2)).foldl
      (fun p pr =>
        let lp := lastPosition p
        p ++ [.lineTo (lp.1 + pr.1) (lp.2 + pr.2)]) p1

/-- `PathBuilder::lineTo` (SVG `L`). -/
def builderLineTo (path : List PathOp) (cmd : PathSegment) : List PathOp :=
  if cmd.fNumbers.length < 2 then path
  else
    let p1 := path ++ [.lineTo (numAt cmd.fNumbers 0) (numAt cmd.fNumbers 1)]
    p1 ++ (pairs2 (cmd.fNumbers.drop 2)).map (fun pr => .lineTo pr.1 pr.2)

/-- `PathBuilder::lineBy` (SVG `l`). -/
def builderLineBy (path : List PathOp) (cmd : PathSegment) : List PathOp :=
  if cmd.fNumbers.length < 2 then path
  else
    let lp := lastPosition path
    let p1 := path ++ [.lineTo (lp.1 + numAt cmd.fNumbers 0) (lp.2 + numAt cmd.fNumbers 1)]
    (pairs2 (cmd.fNumbers.drop 2)).foldl
      (fun p pr =>
        let lp := lastPosition p
        p ++ [.lineTo (lp.1 + pr.1) (lp.2 + pr.2)]) p1

/-- `PathBuilder::hLineTo` (SVG `H`): each number is an x, y is held. -/
def builderHLineTo (path : List PathOp) (cmd : PathSegment) : List PathOp :=
  if cmd.fNumbers.length < 1 then path
  else
    let p1 := path ++ [.lineTo (numAt cmd.fNumbers 0) (lastPosition path).2]
    (cmd.fNumbers.drop 1).foldl
      (fun p x => p ++ [.lineTo x (lastPosition p).2]) p1

/-- `PathBuilder::hLineBy` (SVG `h`). -/
def builderHLineBy (path : List PathOp) (cmd : PathSegment) : List PathOp :=
  if cmd.fNumbers.length < 1 then path
  else
    let lp := lastPosition path
    let p1 := path ++ [.lineTo (lp.1 + numAt cmd.fNumbers 0) lp.2]
    (cmd.fNumbers.drop 1).foldl
      (fun p x =>
        let lp := lastPosition p
        p ++ [.lineTo (lp.1 + x) lp.2]) p1

/-- `PathBuilder::vLineTo` (SVG `V`). -/
def builderVLineTo (path : List PathOp) (cmd : PathSegment) : List PathOp :=
  if cmd.fNumbers.length < 1 then path
  else
    let p1 := path ++ [.lineTo (lastPosition path).1 (numAt cmd.fNumbers 0)]
    (cmd.fNumbers.drop 1).foldl
      (fun p y => p ++ [.lineTo (lastPosition p).1 y]) p1

/-- `PathBuilder::vLineBy` (SVG `v`). -/
def builderVLineBy (path : List PathOp) (cmd : PathSegment) : List PathOp :=
  if cmd.fNumbers.length < 1 then path
  else
    let lp := lastPosition path
    let p1 := path ++ [.lineTo lp.1 (lp.2 + numAt cmd.fNumbers 0)]
    (cmd.fNumbers.drop 1).foldl
      (fun p y =>
        let lp := lastPosition p
        p ++ [.lineTo lp.1 (lp.2 + y)]) p1

/-- `PathBuilder::quadTo` (SVG `Q`): 4 numbers per repetition. -/
def builderQuadTo (path : List PathOp) (cmd : PathSegment) : List PathOp :=
  if cmd.fNumbers.length < 4 then path
  else
    path ++ (tuples4 cmd.fNumbers).map
      (fun t => .quadTo t.1 t.2.1 t.2.2.1 t.2.2.2)

/-- `PathBuilder::quadBy` (SVG `q`). -/
def builderQuadBy (path : List PathOp) (cmd : PathSegment) : List PathOp :=
  if cmd.fNumbers.length < 4 then path
  else
    (tuples4 cmd.fNumbers).foldl
      (fun p t =>
        let lp := lastPosition p
        p ++ [.quadTo (lp.1 + t.1) (lp.2 + t.2.1) (lp.1 + t.2.2.1) (lp.2 + t.2.2.2)]) path

/-- `PathBuilder::smoothQuadTo` (SVG `T`): 2 numbers per repetition. -/
def builderSmoothQuadTo (path : List PathOp) (cmd : PathSegment) : List PathOp :=
  if cmd.fNumbers.length < 2 then path
  else
    path ++ (pairs2 cmd.fNumbers).map (fun pr => .smoothQuadTo pr.1 pr.2)

/-- `PathBuilder::smoothQuadBy` (SVG `t`). -/
def builderSmoothQuadBy (path : List PathOp) (cmd : PathSegment) : List PathOp :=
  if cmd.fNumbers.length < 2 then path
  else
    (pairs2 cmd.fNumbers).foldl
      (fun p pr =>
        let lp := lastPosition p
        p ++ [.smoothQuadTo (lp.1 + pr.1) (lp.2 + pr.2)]) path

/-- `PathBuilder::cubicTo` (SVG `C`): 6 numbers per repetition. -/
def builderCubicTo (path : List PathOp) (cmd : PathSegment) : List PathOp :=
  if cmd.fNumbers.length < 6 then path
  else
    path ++ (tuples6 cmd.fNumbers).map
      (fun t => .cubicTo t.1 t.2.1 t.2.2.1 t.2.2.2.1 t.2.2.2.2.1 t.2.2.2.2.2)

/-- `PathBuilder::cubicBy` (SVG `c`). -/
def builderCubicBy (path : List PathOp) (cmd : PathSegment) : List PathOp :=
  if cmd.fNumbers.length < 6 then path
  else
    (tuples6 cmd.fNumbers).foldl
      (fun p t =>
        let lp := lastPosition p
        p ++ [.cubicTo (lp.1 + t.1) (lp.2 + t.2.1) (lp.1 + t.2.2.1)
              (lp.2 + t.2.2.2.1) (lp.1 + t.2.2.2.2.1) (lp.2 + t.2.2.2.2.2)]) path

/-- `PathBuilder::smoothCubicTo` (SVG `S`): 4 numbers per repetition. -/
def builderSmoothCubicTo (path : List PathOp) (cmd : PathSegment) : List PathOp :=
  if cmd.fNumbers.length < 4 then path
  else
    path ++ (tuples4 cmd.fNumbers).map
      (fun t => .smoothCubicTo t.1 t.2.1 t.2.2.1 t.2.2.2)

/-- `PathBuilder::smoothCubicBy` (SVG `s`). -/
def builderSmoothCubicBy (path : List PathOp) (cmd : PathSegment) : List PathOp :=
  if cmd.fNumbers.length < 4 then path
  else
    (tuples4 cmd.fNumbers).foldl
      (fun p t =>
        let lp := lastPosition p
        p ++ [.smoothCubicTo (lp.1 + t.1) (lp.2 + t.2.1) (lp.1 + t.2.2.1) (lp.2 + t.2.2.2)]) path

/-- `PathBuilder::arcTo` (SVG `A`): 7 numbers per repetition; rotation
is converted to radians, the two flags are thresholded with `> 0.5`. -/
def builderArcTo (path : List PathOp) (cmd : PathSegment) : List PathOp :=
  if cmd.fNumbers.length < 7 then path
  else
    path ++ (tuples7 cmd.fNumbers).map
      (fun t => .ellipticArcTo t.1 t.2.1 (radians t.2.2.1)
        (decide ((1 : Q) / 2 < t.2.2.2.1)) (decide ((1 : Q) / 2 < t.2.2.2.2.1))
        t.2.2.2.2.2.1 t.2.2.2.2.2.2)

/-- `PathBuilder::arcBy` (SVG `a`): endpoint relative to the last
position, re-read each repetition. -/
def builderArcBy (path : List PathOp) (cmd : PathSegment) : List PathOp :=
  if cmd.fNumbers.length < 7 then path
  else
    (tuples7 cmd.fNumbers).foldl
      (fun p t =>
        let lp := lastPosition p
        p ++ [.ellipticArcTo t.1 t.2.1 (radians t.2.2.1)
          (decide ((1 : Q) / 2 < t.2.2.2.1)) (decide ((1 : Q) / 2 < t.2.2.2.2.1))
          (lp.1 + t.2.2.2.2.2.1) (lp.2 + t.2.2.2.2.2.2)]) path

/-- `PathBuilder::close` (SVG `Z`/`z`): emit a close only when the
working path is non-empty. -/
def builderClose (path : List PathOp) (_cmd : PathSegment) : List PathOp :=
  if path.isEmpty then path else path ++ [.close]

/-- Model of `PathBuilder::parseCommands`: dispatch each segment on its
command byte (`'M'`, `'m'`, `'L'`, ... as in the source's switch);
unknown commands (including `SegmentKind::INVALID`) do nothing. -/
def parseCommands (segments : List PathSegment) : List PathOp :=
  segments.foldl
    (fun path cmd =>
      if cmd.fCommand = 77 then builderMoveTo path cmd          -- 'M'
      else if cmd.fCommand = 109 then builderMoveBy path cmd    -- 'm'
      else if cmd.fCommand = 76 then builderLineTo path cmd     -- 'L'
      else if cmd.fCommand = 108 then builderLineBy path cmd    -- 'l'
      else if cmd.fCommand = 72 then builderHLineTo path cmd    -- 'H'
      else if cmd.fCommand = 104 then builderHLineBy path cmd   -- 'h'
      else if cmd.fCommand = 86 then builderVLineTo path cmd    -- 'V'
      else if cmd.fCommand = 118 then builderVLineBy path cmd   -- 'v'
      else if cmd.fCommand = 67 then builderCubicTo path cmd    -- 'C'
      else if cmd.fCommand = 99 then builderCubicBy path cmd    -- 'c'
      else if cmd.fCommand = 83 then builderSmoothCubicTo path cmd  -- 'S'
      else if cmd.fCommand = 115 then builderSmoothCubicBy path cmd -- 's'
      else if cmd.fCommand = 81 then builderQuadTo path cmd     -- 'Q'
      else if cmd.fCommand = 113 then builderQuadBy path cmd    -- 'q'
      else if cmd.fCommand = 84 then builderSmoothQuadTo path cmd   -- 'T'
      else if cmd.fCommand = 116 then builderSmoothQuadBy path cmd  -- 't'
      else if cmd.fCommand = 65 then builderArcTo path cmd      -- 'A'
      else if cmd.fCommand = 97 then builderArcBy path cmd      -- 'a'
      else if cmd.fCommand = 90 || cmd.fCommand = 122 then builderClose path cmd -- 'Z','z'
      else path)
    []

end Svg2b2d

namespace Svg2b2d

/-! ### The XML scanner (src/xmlscan.h) -/

/-- `XML_ELEMENT_TYPE` enum values (src/xmlscan.h). -/
def XML_ELEMENT_TYPE_INVALID : Nat := 0
def XML_ELEMENT_TYPE_XMLDECL : Nat := 1
def XML_ELEMENT_TYPE_CONTENT : Nat := 2
def XML_ELEMENT_TYPE_SELF_CLOSING : Nat := 3
def XML_ELEMENT_TYPE_START_TAG : Nat := 4
def XML_ELEMENT_TYPE_END_TAG : Nat := 5
def XML_ELEMENT_TYPE_COMMENT : Nat := 6
def XML_ELEMENT_TYPE_PROCESSING_INSTRUCTION : Nat := 7
def XML_ELEMENT_TYPE_CDATA : Nat := 8
def XML_ELEMENT_TYPE_DOCTYPE : Nat := 9

/-- Model of `XmlName` (src/xmlscan.h): name split on the first `:` into
an optional namespace prefix and the local name. -/
structure XmlName where
  fNamespace : ByteSpan
  fName : ByteSpan
deriving Repr, DecidableEq

/-- The null span `{}` (`{nullptr, nullptr}`). -/
def nullSpan : ByteSpan := ⟨[], 0, 0⟩

/-- `XmlName::reset(inChunk)`: `fNamespace = chunk_token(fName, ':')`;
when what remains after the split has size `< 1` (`chunk_size` is the
unsigned `size_t` difference) the whole chunk is the name and the
namespace is null. -/
def xmlNameReset (inChunk : ByteSpan) : XmlName :=
  let (ns, rest) := chunk_token inChunk (fun c => c = 58)
  if rest.szT < 1 then ⟨nullSpan, ns⟩ else ⟨ns, rest⟩

/-- Model of `XmlElement`: kind, raw data span, owned name string (as
bytes), split name, and the attribute map (`std::map`, i.e. sorted by
key with replacement on duplicate insert). -/
structure XmlElement where
  fElementKind : Nat
  fData : ByteSpan
  fXmlName : XmlName
  fName : List Nat
  fAttributes : List (List Nat × ByteSpan)
deriving Repr, DecidableEq

/-- Byte-list order used by `std::map<std::string, _>` keys. -/
def bytesLt (a b : List Nat) : Bool :=
  match a, b with
  | [], [] => false
  | [], _ :: _ => true
  | _ :: _, [] => false
  | x :: xs, y :: ys => if x < y then true else if y < x then false else bytesLt xs ys

/-- Insertion into the sorted attribute map (`fAttributes[name] = value`). -/
def mapInsert (name : List Nat) (v : ByteSpan) :
    List (List Nat × ByteSpan) → List (List Nat × ByteSpan)
  | [] => [(name, v)]
  | (k, w) :: rest =>
    if name = k then (k, v) :: rest
    else if bytesLt name k then (name, v) :: (k, w) :: rest
    else (k, w) :: mapInsert name v rest

/-- Result of `XmlElement::scanTagName`: the owned name string, the
split name, and `fData` advanced past the name.  A leading `/` (end tag)
is skipped; the name runs to the first whitespace byte. -/
def scanTagName (data : ByteSpan) : List Nat × XmlName × ByteSpan :=
  if !data.isTrue then ([], ⟨nullSpan, nullSpan⟩, data)
  else
    let s := if data.star = 47 then data.inc else data
    let stop := skipWhileN s.buf (fun c => !wspChars c) (s.e - s.s) s.s
    let tagName : ByteSpan := ⟨s.buf, s.s, stop⟩
    (spanBytes tagName, xmlNameReset tagName, { s with s := stop })

/-- One iteration of the `scanAttributes` loop: returns the updated
attribute map and cursor, or `none` when the loop breaks/ends. -/
def scanAttrStep (attrs : List (List Nat × ByteSpan)) (s : ByteSpan) :
    Option (List (List Nat × ByteSpan) × ByteSpan) :=
  let s := chunk_ltrim s wspChars
  if !s.isTrue then none
  else if s.star = 47 then none          -- '/' : trailing self-close marker
  else
    let (attrNameChunk, s) := chunk_token s (fun c => c = 61)  -- '='
    let attrName := spanBytes (chunk_trim attrNameChunk wspChars)
    -- skip until the opening quote (double or single)
    let s : ByteSpan := { s with s := skipWhileN s.buf (fun c => !(c = 34) && !(c = 39)) (s.e - s.s) s.s }
    if !s.isTrue then none
    else
      let quote := s.star
      let s := s.inc
      let beginV := s.s
      -- skip until the closing quote
      let s : ByteSpan := { s with s := skipWhileN s.buf (fun c => !(c = quote)) (s.e - s.s) s.s }
      -- when the closing quote is missing, `endattrValue` stays nullptr
      -- and the stored span is `{beginattrValue, nullptr}`
      let (endV, s) := if s.isTrue then (s.s, s.inc) else (0, s)
      some (mapInsert attrName ⟨s.buf, beginV, endV⟩ attrs, s)

/-- The `scanAttributes` loop, bounded by `n` iterations (each iteration
strictly advances the cursor or stops, so `size + 1` suffices). -/
def scanAttrLoop (attrs : List (List Nat × ByteSpan)) (s : ByteSpan) :
    Nat → List (List Nat × ByteSpan)
  | 0 => attrs
  | n + 1 =>
    match scanAttrStep attrs s with
    | none => attrs
    | some (attrs', s') => scanAttrLoop attrs' s' n

/-- Model of `XmlElement::scanAttributes` over the post-name data span. -/
def scanAttributes (data : ByteSpan) : List (List Nat × ByteSpan) :=
  scanAttrLoop [] data (data.e - data.s + 1)

/-- Model of `XmlElement::reset(kind, data, autoScanAttr = true)`: tag
kinds get their name scanned (advancing `fData`), and Start/SelfClosing
kinds additionally get their attributes scanned. -/
def resetElem (kind : Nat) (data : ByteSpan) : XmlElement :=
  if kind = XML_ELEMENT_TYPE_START_TAG || kind = XML_ELEMENT_TYPE_SELF_CLOSING ||
     kind = XML_ELEMENT_TYPE_END_TAG then
    let (name, xname, data') := scanTagName data
    let attrs := if kind ≠ XML_ELEMENT_TYPE_END_TAG then scanAttributes data' else []
    ⟨kind, data', xname, name, attrs⟩
  else
    ⟨kind, data, ⟨nullSpan, nullSpan⟩, [], []⟩

/-- State of `XmlElementIterator`: scan state (0 = Content,
1 = StartTag), the source cursor, and the content mark. -/
structure ScanState where
  fState : Nat
  fSource : ByteSpan
  mark : ByteSpan
deriving Repr, DecidableEq

/-- Model of `XmlElementIterator::readTag`: scan to the next `>`, right
trim the tag chunk, step past the `>`. -/
def readTag (src : ByteSpan) : ByteSpan × ByteSpan :=
  let stop := skipWhileN src.buf (fun c => !(c = 62)) (src.e - src.s) src.s
  let elementChunk := chunk_rtrim ⟨src.buf, src.s, stop⟩ wspChars
  (elementChunk, ByteSpan.inc ⟨src.buf, stop, src.e⟩)

/-- Model of `XmlElementIterator::readDoctype`: scan to the first `]`;
when it is immediately followed by `>` (a raw `fSource[1]` read), the
element chunk runs through the `]` (right-trimmed) and the cursor skips
the `>`; otherwise the element chunk stays empty and the cursor is left
at the scan stop. -/
def readDoctype (src : ByteSpan) : ByteSpan × ByteSpan :=
  let stop := skipWhileN src.buf (fun c => !(c = 93)) (src.e - src.s) src.s
  let s1 : ByteSpan := ⟨src.buf, stop, src.e⟩
  if s1.star = 93 && byteAt src.buf (s1.s + 1) = 62 then
    let s2 := s1.inc
    let elementChunk := chunk_rtrim ⟨src.buf, src.s, s2.s⟩ wspChars
    (elementChunk, s2.inc)
  else (⟨src.buf, src.s, src.s⟩, s1)

/-- The `XML_ITERATOR_STATE_START_TAG` arm of `XmlElementIterator::next`:
classify the tag by prefix, read it, and build the element (this arm
always yields an element). -/
def startTagStep (st : ScanState) : XmlElement × ScanState :=
  let src := st.fSource
  let (kind, elementChunk, src') :=
    if chunk_starts_with_cstr src "?xml" then
      let (c, s') := readTag src; (XML_ELEMENT_TYPE_XMLDECL, c, s')
    else if chunk_starts_with_cstr src "?" then
      let (c, s') := readTag src; (XML_ELEMENT_TYPE_PROCESSING_INSTRUCTION, c, s')
    else if chunk_starts_with_cstr src "!DOCTYPE" then
      let (c, s') := readDoctype src; (XML_ELEMENT_TYPE_DOCTYPE, c, s')
    else if chunk_starts_with_cstr src "!--" then
      let (c, s') := readTag src; (XML_ELEMENT_TYPE_COMMENT, c, s')
    else if chunk_starts_with_cstr src "![CDATA[" then
      let (c, s') := readTag src; (XML_ELEMENT_TYPE_CDATA, c, s')
    else if chunk_starts_with_cstr src "/" then
      let (c, s') := readTag src; (XML_ELEMENT_TYPE_END_TAG, c, s')
    else
      let (c, s') := readTag src
      if chunk_ends_with_char c 47 then (XML_ELEMENT_TYPE_SELF_CLOSING, c, s')
      else (XML_ELEMENT_TYPE_START_TAG, c, s')
  (resetElem kind elementChunk, ⟨0, src', src'⟩)

/-- Model of `XmlElementIterator::next()`, fuelled by the iteration
count of its `while (fSource)` loop (the Content arm advances the cursor
by one byte per iteration; the StartTag arm always returns).  Yields
`none` when the source is exhausted (`fCurrentElement.clear()`). -/
def scannerNext : Nat → ScanState → Option XmlElement × ScanState
  | 0, st => (none, st)
  | n + 1, st =>
    if !st.fSource.isTrue then (none, st)
    else if st.fState = 0 then
      -- XML_ITERATOR_STATE_CONTENT
      if st.fSource.star = 60 then  -- '<'
        let st1 : ScanState := { st with fState := 1 }
        -- `fSource != mark` is ByteSpan operator!=, i.e. content inequality
        if !chunk_is_equal st1.fSource st1.mark then
          let content := chunk_trim ⟨st1.fSource.buf, st1.mark.s, st1.fSource.s⟩ wspChars
          if content.isTrue then
            let src' := st1.fSource.inc
            (some (resetElem XML_ELEMENT_TYPE_CONTENT content), ⟨1, src', src'⟩)
          else
            let src' := st1.fSource.inc
            scannerNext n ⟨1, src', src'⟩
        else
          let src' := st1.fSource.inc
          scannerNext n ⟨1, src', src'⟩
      else
        scannerNext n { st with fSource := st.fSource.inc }
    else
      -- XML_ITERATOR_STATE_START_TAG
      let (elem, st') := startTagStep st
      (some elem, st')

/-- Fuel that always suffices for one `next()` call. -/
def nextFuel (st : ScanState) : Nat := st.fSource.e - st.fSource.s + 2

/-- Collect every element the iterator yields (at most `n`). -/
def runScanner : Nat → ScanState → List XmlElement
  | 0, _ => []
  | n + 1, st =>
    match scannerNext (nextFuel st) st with
    | (none, _) => []
    | (some e, st') => e :: runScanner n st'

/-- All elements scanned from a chunk: initial state is
`{Content, chunk, chunk}`; the element count is bounded by the size. -/
def scanXml (chunk : ByteSpan) : List XmlElement :=
  runScanner (chunk.e - chunk.s + 1) ⟨0, chunk, chunk⟩

end Svg2b2d

namespace Svg2b2d

/-! ### Transforms (src/svgtypes.h `SVGTransform` and parse helpers).
`BLMatrix2D` is blend2d's affine matrix `[m00 m01; m10 m11; m20 m21]`
mapping a point by `p ↦ (p.x*m00 + p.y*m10 + m20, p.x*m01 + p.y*m11 + m21)`,
with the non-post mutators (`translate`, `scale`, `rotate`, `transform`)
prepending their matrix — exactly the left-multiplication the spec
describes.  `cos`/`sin`/`tan` are C library doubles with no exact
rational value; they are abstract parameters `trig` here (no claim input
reaches the `rotate`/`skewX`/`skewY` branches). -/

structure Matrix2D where
  m00 : Q
  m01 : Q
  m10 : Q
  m11 : Q
  m20 : Q
  m21 : Q
deriving Repr, DecidableEq

/-- Abstract trigonometric primitives (`cos`, `sin`, `tan`). -/
structure Trig where
  cosF : Q → Q
  sinF : Q → Q
  tanF : Q → Q

/-- `BLMatrix2D::reset()`: the identity. -/
def Matrix2D.identity : Matrix2D := ⟨1, 0, 0, 1, 0, 0⟩

/-- `BLMatrix2D::reset(m00, m01, m10, m11, m20, m21)`. -/
def Matrix2D.resetTo (a b c d e f : Q) : Matrix2D := ⟨a, b, c, d, e, f⟩

/-- Map a point through the matrix (blend2d row-vector convention). -/
def Matrix2D.mapPoint (m : Matrix2D) (p : Q × Q) : Q × Q :=
  (p.1 * m.m00 + p.2 * m.m10 + m.m20, p.1 * m.m01 + p.2 * m.m11 + m.m21)

/-- Matrix product `a * b` with `mapPoint (a * b) p = mapPoint b (mapPoint a p)`. -/
def Matrix2D.mul (a b : Matrix2D) : Matrix2D :=
  ⟨a.m00 * b.m00 + a.m01 * b.m10,
   a.m00 * b.m01 + a.m01 * b.m11,
   a.m10 * b.m00 + a.m11 * b.m10,
   a.m10 * b.m01 + a.m11 * b.m11,
   a.m20 * b.m00 + a.m21 * b.m10 + b.m20,
   a.m20 * b.m01 + a.m21 * b.m11 + b.m21⟩

/-- `BLMatrix2D::transform(m)`: prepend, i.e. left-multiply `this` by `m`. -/
def Matrix2D.transform (this m : Matrix2D) : Matrix2D := m.mul this

/-- `BLMatrix2D::translate(x, y)` (prepend a translation). -/
def Matrix2D.translateOp (m : Matrix2D) (x y : Q) : Matrix2D :=
  (Matrix2D.resetTo 1 0 0 1 x y).mul m

/-- `BLMatrix2D::scale(x, y)` (prepend a scaling). -/
def Matrix2D.scaleOp (m : Matrix2D) (x y : Q) : Matrix2D :=
  (Matrix2D.resetTo x 0 0 y 0 0).mul m

/-- `BLMatrix2D::rotate(angle, cx, cy)` (prepend a rotation about a
point), with the trigonometric values supplied abstractly. -/
def Matrix2D.rotateOp (trig : Trig) (m : Matrix2D) (angle cx cy : Q) : Matrix2D :=
  let c := trig.cosF angle
  let s := trig.sinF angle
  (Matrix2D.resetTo c s (-s) c (cx - c * cx + s * cy) (cy - s * cx - c * cy)).mul m

/-- `BLMatrix2D::resetToSkewing(x, y)`. -/
def Matrix2D.resetToSkewing (trig : Trig) (x y : Q) : Matrix2D :=
  ⟨1, trig.tanF y, trig.tanF x, 1, 0, 0⟩

/-- The number delimiter set `wspChars + ','` used by the transform
argument scanner. -/
def numDelims (c : Nat) : Bool := wspChars c || c = 44

/-- The `while (item) { args[na++] = nextNumber(item, numDelims) }` loop
of `parseTransformArgs`, bounded by `n` iterations; stops when the item
span is exhausted or `maxNa` arguments have been taken. -/
def transformArgsLoop (maxNa : Nat) : Nat → ByteSpan → List Q → List Q
  | 0, _, args => args
  | n + 1, item, args =>
    if item.isTrue then
      if maxNa ≤ args.length then args
      else
        let (v, item') := nextNumber item numDelims
        transformArgsLoop maxNa n item' (args ++ [v])
    else args

/-- Model of `parseTransformArgs(inChunk, args, maxNa, na)`: find the
parenthesised argument list, split it on whitespace/commas, parse up to
`maxNa` doubles; returns the argument list and the cursor past `)`.
When `(` or `)` is missing the cursor ends empty and no arguments are
parsed. -/
def parseTransformArgs (inChunk : ByteSpan) (maxNa : Nat) : List Q × ByteSpan :=
  let s := chunk_find_char inChunk 40     -- '('
  if !s.isTrue then ([], s)
  else
    let s := s.inc
    let itemStart := s.s
    let s := chunk_find_char s 41         -- ')'
    if !s.isTrue then ([], s)
    else
      let item : ByteSpan := ⟨s.buf, itemStart, s.s⟩
      let s' := s.inc
      (transformArgsLoop maxNa (item.e - item.s + 1) item [], s')

/-- `parseMatrix`: six arguments or the matrix stays the identity. -/
def parseMatrix (inChunk : ByteSpan) : Matrix2D × ByteSpan :=
  let (t, s) := parseTransformArgs inChunk 6
  if t.length ≠ 6 then (Matrix2D.identity, s)
  else (Matrix2D.resetTo (numAt t 0) (numAt t 1) (numAt t 2) (numAt t 3) (numAt t 4) (numAt t 5), s)

/-- `parseTranslate`: one argument defaults y to 0.  The source's `args`
array is uninitialised; a missing argument is modelled as 0. -/
def parseTranslate (inChunk : ByteSpan) : Matrix2D × ByteSpan :=
  let (args, s) := parseTransformArgs inChunk 2
  let y := if args.length = 1 then 0 else numAt args 1
  (Matrix2D.identity.translateOp (numAt args 0) y, s)

/-- `parseScale`: one argument means uniform scaling. -/
def parseScale (inChunk : ByteSpan) : Matrix2D × ByteSpan :=
  let (args, s) := parseTransformArgs inChunk 2
  let y := if args.length = 1 then numAt args 0 else numAt args 1
  (Matrix2D.identity.scaleOp (numAt args 0) y, s)

/-- `parseSkewX`. -/
def parseSkewX (trig : Trig) (inChunk : ByteSpan) : Matrix2D × ByteSpan :=
  let (args, s) := parseTransformArgs inChunk 1
  (Matrix2D.resetToSkewing trig (radians (numAt args 0)) 0, s)

/-- `parseSkewY`. -/
def parseSkewY (trig : Trig) (inChunk : ByteSpan) : Matrix2D × ByteSpan :=
  let (args, s) := parseTransformArgs inChunk 1
  (Matrix2D.resetToSkewing trig 0 (radians (numAt args 0)), s)

/-- `parseRotate`: one argument rotates about the origin (centre
defaults to `(0,0)`); three arguments rotate about the given centre. -/
def parseRotate (trig : Trig) (inChunk : ByteSpan) : Matrix2D × ByteSpan :=
  let (args, s) := parseTransformArgs inChunk 3
  (Matrix2D.identity.rotateOp trig (radians (numAt args 0)) (numAt args 1) (numAt args 2), s)

/-- One dispatch step of `SVGTransform::loadSelfFromChunk` after the
whitespace skip: a recognised transform function yields its matrix, a
flag telling whether it was the `matrix(...)` entry, and the advanced
cursor; any other byte is skipped by the caller. -/
def scanTransformEntry (trig : Trig) (s : ByteSpan) :
    Option ((Bool × Matrix2D) × ByteSpan) :=
  if chunk_starts_with_cstr s "matrix" then
    let (tm, s') := parseMatrix s; some ((true, tm), s')
  else if chunk_starts_with_cstr s "translate" then
    let (tm, s') := parseTranslate s; some ((false, tm), s')
  else if chunk_starts_with_cstr s "scale" then
    let (tm, s') := parseScale s; some ((false, tm), s')
  else if chunk_starts_with_cstr s "rotate" then
    let (tm, s') := parseRotate trig s; some ((false, tm), s')
  else if chunk_starts_with_cstr s "skewX" then
    let (tm, s') := parseSkewX trig s; some ((false, tm), s')
  else if chunk_starts_with_cstr s "skewY" then
    let (tm, s') := parseSkewY trig s; some ((false, tm), s')
  else none

/-- The `while (s)` loop of `SVGTransform::loadSelfFromChunk`, carrying
the running transform `fTransform`.  A `matrix` entry ASSIGNS
(`fTransform = tm`); every other recognised entry left-multiplies
(`fTransform.transform(tm)`); an unrecognised byte is skipped (`s++`).
(The `set(true)` is-set flag does not affect the transform and is
elided.) -/
def loadTransformLoop (trig : Trig) : Nat → ByteSpan → Matrix2D → Matrix2D
  | 0, _, m => m
  | n + 1, s, m =>
    if !s.isTrue then m
    else
      let s1 := chunk_skip_wsp s
      match scanTransformEntry trig s1 with
      | some ((isMatrix, tm), s') =>
        loadTransformLoop trig n s' (if isMatrix then tm else m.transform tm)
      | none => loadTransformLoop trig n s1.inc m

/-- Model of `SVGTransform::loadSelfFromChunk(inChunk)`: start from the
identity; the loop advances at least one byte per iteration, so
`size + 2` iterations always suffice. -/
def loadTransform (trig : Trig) (inChunk : ByteSpan) : Matrix2D :=
  loadTransformLoop trig (inChunk.e - inChunk.s + 2) inChunk Matrix2D.identity

/-- The same scan, collecting the recognised entries in encounter order
(used to state how the running transform is composed). -/
def transformEntriesLoop (trig : Trig) : Nat → ByteSpan → List (Bool × Matrix2D)
  | 0, _ => []
  | n + 1, s =>
    if !s.isTrue then []
    else
      let s1 := chunk_skip_wsp s
      match scanTransformEntry trig s1 with
      | some (entry, s') => entry :: transformEntriesLoop trig n s'
      | none => transformEntriesLoop trig n s1.inc

/-- The recognised entries of a transform list, in encounter order. -/
def transformEntries (trig : Trig) (inChunk : ByteSpan) : List (Bool × Matrix2D) :=
  transformEntriesLoop trig (inChunk.e - inChunk.s + 2) inChunk

/-- Composition rule following the spec's words alone: EVERY recognised
entry (including `matrix`) is left-multiplied onto the running transform
in encounter order. -/
def specLeftMultiply (entries : List (Bool × Matrix2D)) : Matrix2D :=
  entries.foldl (fun m entry => m.transform entry.2) Matrix2D.identity

/-- Composition rule the code implements: a `matrix` entry replaces the
running transform, every other entry is left-multiplied. -/
def codeCompose (entries : List (Bool × Matrix2D)) : Matrix2D :=
  entries.foldl (fun m entry => if entry.1 then entry.2 else m.transform entry.2)
    Matrix2D.identity

/-- Trig instance with all three functions constantly zero, usable for
inputs whose entries never invoke them. -/
def zeroTrig : Trig := ⟨fun _ => 0, fun _ => 0, fun _ => 0⟩

end Svg2b2d

namespace Svg2b2d

/-! ### Colors (src/svgtypes.h `parseColorHex`, `parseColorName`) -/

/-- Model of `BLRgba32`: the blend2d 32-bit color; the `(r, g, b)`
constructor defaults alpha to 255. -/
structure Rgba32 where
  r : Nat
  g : Nat
  b : Nat
  a : Nat
deriving Repr, DecidableEq

/-- Hex digit value, `none` for a non-hex byte (sscanf `%x` accepts
both cases and digits). -/
def hexVal (c : Nat) : Option Nat :=
  if 48 ≤ c && c ≤ 57 then some (c - 48)
  else if 97 ≤ c && c ≤ 102 then some (c - 87)
  else if 65 ≤ c && c ≤ 70 then some (c - 55)
  else none

/-- One `%1x`/`%2x` conversion of `sscanf`: consume at least one and at
most `w` hex digits greedily; fails with no digit. -/
def scanHexGroup (w : Nat) : List Nat → Option (Nat × List Nat)
  | [] => none
  | c :: rest =>
    match hexVal c with
    | none => none
    | some v =>
      match w with
      | 0 => none
      | 1 => some (v, rest)
      | w' + 1 =>
        match rest with
        | [] => some (v, [])
        | c2 :: rest2 =>
          match hexVal c2 with
          | none => some (v, rest)
          | some _ =>
            match scanHexGroup w' (c2 :: rest2) with
            | some (v2, rest') => some (v * 16 ^ (numDigitsHex w' (c2 :: rest2)) + v2, rest')
            | none => some (v, rest)
  where
    /-- Number of hex digits `%wx` will consume from the front. -/
    numDigitsHex (w : Nat) (l : List Nat) : Nat :=
      match w, l with
      | 0, _ => 0
      | _, [] => 0
      | w' + 1, c :: rest => if (hexVal c).isSome then 1 + numDigitsHex w' rest else 0

/-- `sscanf(str, "#%wx%wx%wx", &r, &g, &b) == 3`: a leading `#` followed
by three hex groups of width `w` (trailing bytes are ignored). -/
def scanHashHex3 (w : Nat) (l : List Nat) : Option (Nat × Nat × Nat) :=
  match l with
  | 35 :: rest =>
    match scanHexGroup w rest with
    | none => none
    | some (r, rest) =>
      match scanHexGroup w rest with
      | none => none
      | some (g, rest) =>
        match scanHexGroup w rest with
        | none => none
        | some (b, _) => some (r, g, b)
  | _ => none

/-- Model of `parseColorHex(chunk)`: the chunk is copied to a C string
truncated at 63 bytes; try `#%2x%2x%2x`, then `#%1x%1x%1x` with the
digit-doubling `* 17`, else mid-gray. -/
def parseColorHex (chunk : ByteSpan) : Rgba32 :=
  let str := (spanBytes chunk).take 63
  match scanHashHex3 2 str with
  | some (r, g, b) => ⟨r, g, b, 255⟩
  | none =>
    match scanHashHex3 1 str with
    | some (r, g, b) => ⟨r * 17, g * 17, b * 17, 255⟩
    | none => ⟨128, 128, 128, 255⟩

/-- Modelled from the spec: the named-color table `svg::colors`
(svgcolors.h, which is not under src/) is "a static mapping from
lowercase CSS color names to RGBA values", an external collaborator of
the color parser; it is passed here as an explicit association list. -/
def colorLookup (colors : List (List Nat × Rgba32)) (name : List Nat) : Option Rgba32 :=
  match colors with
  | [] => none
  | (k, v) :: rest => if k = name then some v else colorLookup rest name

/-- Model of `parseColorName(inChunk)` over an explicit color table:
when the name is absent the fallback `BLRgba32(128, 128, 128, 255)` is
returned rather than an error. -/
def parseColorName (colors : List (List Nat × Rgba32)) (inChunk : ByteSpan) : Rgba32 :=
  let cName := spanBytes inChunk
  match colorLookup colors cName with
  | none => ⟨128, 128, 128, 255⟩
  | some c => c

end Svg2b2d

namespace Svg2b2d

/-! ### Facts about the `chunk_token` delimiter scan -/

theorem findTokN_ge (buf : List Nat) (d : Nat → Bool) :
    ∀ n i, i ≤ findTokN buf d n i := by
  intro n
  induction n with
  | zero => intro i; simp [findTokN]
  | succ n ih =>
    intro i
    simp only [findTokN]
    split
    · exact Nat.le_refl i
    · exact Nat.le_trans (Nat.le_succ i) (ih (i + 1))

theorem findTokN_le (buf : List Nat) (d : Nat → Bool) :
    ∀ n i, findTokN buf d n i ≤ i + n := by
  intro n
  induction n with
  | zero => intro i; simp [findTokN]
  | succ n ih =>
    intro i
    simp only [findTokN]
    split
    · omega
    · have := ih (i + 1); omega

theorem findTokN_before (buf : List Nat) (d : Nat → Bool) :
    ∀ n i j, i ≤ j → j < findTokN buf d n i → d (byteAt buf j) = false := by
  intro n
  induction n with
  | zero => intro i j hij hj; simp [findTokN] at hj; omega
  | succ n ih =>
    intro i j hij hj
    simp only [findTokN] at hj
    by_cases hd : d (byteAt buf i)
    · simp [hd] at hj; omega
    · simp [hd] at hj
      rcases Nat.eq_or_lt_of_le hij with rfl | hlt
      · exact Bool.eq_false_iff.mpr hd
      · exact ih (i + 1) j hlt hj

theorem findTokN_hit (buf : List Nat) (d : Nat → Bool) :
    ∀ n i, findTokN buf d n i < i + n → d (byteAt buf (findTokN buf d n i)) = true := by
  intro n
  induction n with
  | zero => intro i h; simp [findTokN] at h
  | succ n ih =>
    intro i h
    simp only [findTokN] at h ⊢
    by_cases hd : d (byteAt buf i)
    · simp [hd]
    · simp [hd] at h ⊢
      exact ih (i + 1) (by omega)

end Svg2b2d

namespace Svg2b2d

theorem chunk_token_fst (a : ByteSpan) (d : Nat → Bool) :
    (chunk_token a d).1 = ⟨a.buf, a.s, findTokN a.buf d (a.e - a.s) a.s⟩ := rfl

theorem chunk_token_snd (a : ByteSpan) (d : Nat → Bool) :
    (chunk_token a d).2 =
      ⟨a.buf,
       if d (byteAt a.buf (findTokN a.buf d (a.e - a.s) a.s)) then
         findTokN a.buf d (a.e - a.s) a.s + 1
       else findTokN a.buf d (a.e - a.s) a.s,
       a.e⟩ := rfl

theorem tokenListN_nil (d : Nat → Bool) (n : Nat) (a : ByteSpan) (h : ¬ a.isTrue) :
    tokenListN d n a = [] := by
  cases n <;> simp [tokenListN, h]

theorem tokenListN_cons (d : Nat → Bool) (n : Nat) (a : ByteSpan) (h : a.isTrue) :
    tokenListN d (n + 1) a =
      (chunk_token a d).1 :: tokenListN d n (chunk_token a d).2 := by
  simp [tokenListN, h]

/-- Induction core for the tokenization partition property: with enough
fuel, the token list consists of delimiter-free in-bound sub-ranges,
pairwise separated, that together with the consumed delimiter bytes
cover the span. -/
theorem tokenListN_props (d : Nat → Bool) :
    ∀ n (a : ByteSpan), a.e - a.s < n →
      (∀ t ∈ tokenListN d n a, t.buf = a.buf ∧ a.s ≤ t.s ∧ t.s ≤ t.e ∧ t.e ≤ a.e ∧
        ∀ j, t.s ≤ j → j < t.e → d (byteAt a.buf j) = false) ∧
      List.Pairwise (fun t u => t.e < u.s) (tokenListN d n a) ∧
      (∀ j, a.s ≤ j → j < a.e →
        d (byteAt a.buf j) = true ∨ ∃ t ∈ tokenListN d n a, t.s ≤ j ∧ j < t.e) := by
  intro n
  induction n with
  | zero => intro a h; omega
  | succ n ih =>
    intro a hn
    by_cases hT : a.isTrue
    · have hse : a.s < a.e := by simpa [ByteSpan.isTrue] using hT
      set f := findTokN a.buf d (a.e - a.s) a.s with hf
      have hf_ge : a.s ≤ f := findTokN_ge a.buf d (a.e - a.s) a.s
      have hf_le : f ≤ a.e := by
        have := findTokN_le a.buf d (a.e - a.s) a.s
        omega
      have hfree : ∀ j, a.s ≤ j → j < f → d (byteAt a.buf j) = false :=
        fun j h1 h2 => findTokN_before a.buf d (a.e - a.s) a.s j h1 h2
      by_cases hd : d (byteAt a.buf f)
      · -- delimiter byte at `f` (inside the span, or the off-end byte)
        have hlist : tokenListN d (n + 1) a =
            ⟨a.buf, a.s, f⟩ :: tokenListN d n ⟨a.buf, f + 1, a.e⟩ := by
          rw [tokenListN_cons d n a hT, chunk_token_fst, chunk_token_snd]
          simp [← hf, hd]
        rw [hlist]
        have hm : a.e - (f + 1) < n := by omega
        obtain ⟨ih1, ih2, ih3⟩ := ih ⟨a.buf, f + 1, a.e⟩ hm
        refine ⟨?_, ?_, ?_⟩
        · intro t ht
          rcases List.mem_cons.mp ht with rfl | ht'
          · exact ⟨rfl, Nat.le_refl _, hf_ge, hf_le, hfree⟩
          · obtain ⟨hb, h1, h2, h3, h4⟩ := ih1 t ht'
            have h1' : f + 1 ≤ t.s := h1
            have h3' : t.e ≤ a.e := h3
            exact ⟨hb, by omega, h2, h3', h4⟩
        · refine List.pairwise_cons.mpr ⟨?_, ih2⟩
          intro u hu
          obtain ⟨_, h1, _, _, _⟩ := ih1 u hu
          have h1' : f + 1 ≤ u.s := h1
          exact (by omega : f < u.s)
        · intro j hj1 hj2
          rcases Nat.lt_trichotomy j f with hlt | rfl | hgt
          · exact Or.inr ⟨⟨a.buf, a.s, f⟩, List.mem_cons_self _ _, hj1, hlt⟩
          · exact Or.inl hd
          · rcases ih3 j (by exact hgt) hj2 with h | ⟨t, ht, h1, h2⟩
            · exact Or.inl h
            · exact Or.inr ⟨t, List.mem_cons_of_mem _ ht, h1, h2⟩
      · -- no delimiter found: the scan ran to the end of the span
        have hfe : f = a.e := by
          by_contra hne
          have := findTokN_hit a.buf d (a.e - a.s) a.s (by omega)
          rw [← hf] at this
          simp [this] at hd
        have hlist : tokenListN d (n + 1) a = [⟨a.buf, a.s, f⟩] := by
          rw [tokenListN_cons d n a hT, chunk_token_fst, chunk_token_snd]
          simp only [← hf, hd, if_false, Bool.false_eq_true, List.cons.injEq, and_true]
          refine ⟨trivial, ?_⟩
          exact tokenListN_nil d n ⟨a.buf, f, a.e⟩ (by simp [ByteSpan.isTrue]; omega)
        rw [hlist]
        refine ⟨?_, ?_, ?_⟩
        · intro t ht
          rcases List.mem_cons.mp ht with rfl | ht'
          · exact ⟨rfl, Nat.le_refl _, hf_ge, hf_le, hfree⟩
          · simp at ht'
        · simp
        · intro j hj1 hj2
          exact Or.inr ⟨⟨a.buf, a.s, f⟩, List.mem_cons_self _ _, hj1, (by omega : j < f)⟩
    · rw [tokenListN_nil d (n + 1) a hT]
      have hse : a.e ≤ a.s := by
        simp [ByteSpan.isTrue] at hT
        omega
      exact ⟨by simp, by simp, fun j h1 h2 => absurd (Nat.lt_of_le_of_lt h1 h2) (by omega)⟩

end Svg2b2d

namespace Svg2b2d

/-! ### Claim theorems -/

/-- A delimiter set containing exactly the comma, for concrete
instantiations. -/
def commaSet (c : Nat) : Bool := c = 44

/-- A one-byte sub-span (the byte `a` of the buffer `"a,b"`) whose
following buffer byte is a delimiter: the configuration on which
`chunk_token` diverges from claim C1. -/
def subTokenSpan : ByteSpan := ⟨strBytes "a,b", 0, 1⟩

/-- C1 (counterexample to the claim as stated): on the span covering
only the byte `a` of the buffer `"a,b"` with delimiter set `{','}`, no
byte of the span is a delimiter and the entire span is returned, yet the
mutated span does NOT satisfy `start == end`: `chunk_token` examines the
byte one past the span's end (the `,`), finds it in the set, and moves
the start to `end + 1`. -/
theorem chunk_token_claim_counterexample :
    commaSet (byteAt subTokenSpan.buf 0) = false ∧
    subTokenSpan.s = 0 ∧ subTokenSpan.e = 1 ∧
    (chunk_token subTokenSpan commaSet).1 = subTokenSpan ∧
    ¬ (chunk_token subTokenSpan commaSet).2.s = (chunk_token subTokenSpan commaSet).2.e := by
  decide

/-- C1 (amended): `chunk_token(a, d)` returns the sub-span of `a`
strictly before the first byte of `a` in `d`; when a delimiter is found
inside `a` the mutated span starts exactly one byte past it; when no
byte of `a` is in `d` the entire span is returned and the mutated span
tests empty (its `operator bool` is false), with `start = end` unless
the byte one past the span's end is in `d`, in which case
`start = end + 1`. -/
theorem chunk_token_spec (a : ByteSpan) (d : Nat → Bool) (h : a.s ≤ a.e) :
    (chunk_token a d).1.buf = a.buf ∧ (chunk_token a d).2.buf = a.buf ∧
    (chunk_token a d).1.s = a.s ∧ (chunk_token a d).1.e ≤ a.e ∧
    (chunk_token a d).2.e = a.e ∧
    (∀ j, a.s ≤ j → j < (chunk_token a d).1.e → d (byteAt a.buf j) = false) ∧
    ((chunk_token a d).1.e < a.e →
      d (byteAt a.buf (chunk_token a d).1.e) = true ∧
      (chunk_token a d).2.s = (chunk_token a d).1.e + 1) ∧
    ((chunk_token a d).1.e = a.e →
      (chunk_token a d).1 = a ∧
      (chunk_token a d).2.isTrue = false ∧
      (chunk_token a d).2.s = if d (byteAt a.buf a.e) then a.e + 1 else a.e) := by
  rw [chunk_token_fst, chunk_token_snd]
  set f := findTokN a.buf d (a.e - a.s) a.s with hf
  have hf_ge : a.s ≤ f := findTokN_ge a.buf d (a.e - a.s) a.s
  have hf_le : f ≤ a.e := by
    have := findTokN_le a.buf d (a.e - a.s) a.s
    omega
  refine ⟨rfl, rfl, rfl, hf_le, rfl, ?_, ?_, ?_⟩
  · exact fun j h1 h2 => findTokN_before a.buf d (a.e - a.s) a.s j h1 h2
  · intro hlt
    have hlt' : f < a.e := hlt
    have hhit := findTokN_hit a.buf d (a.e - a.s) a.s (by omega)
    rw [← hf] at hhit
    exact ⟨hhit, by simp [hhit]⟩
  · intro hfe
    have hfe' : f = a.e := hfe
    refine ⟨?_, ?_, ?_⟩
    · rw [hfe']
    · by_cases hd : d (byteAt a.buf f) <;> simp [ByteSpan.isTrue, hd] <;> try omega
    · rw [← hfe']

/-- Witness for C1's amended theorem at the concrete whole-buffer span
`"a,b"`: the comma is found inside the span, so the mutated span starts
one byte past it. -/
theorem chunk_token_spec_witness :
    (strSpan "a,b").s ≤ (strSpan "a,b").e ∧
    (chunk_token (strSpan "a,b") commaSet).1.e < (strSpan "a,b").e ∧
    (chunk_token (strSpan "a,b") commaSet).2.s =
      (chunk_token (strSpan "a,b") commaSet).1.e + 1 :=
  ⟨by decide, by decide,
    ((chunk_token_spec (strSpan "a,b") commaSet (by decide)).2.2.2.2.2.2.1 (by decide)).2⟩

/-- C2: repeatedly calling `chunk_token` until the span tests empty
partitions the original bytes deterministically: every returned
sub-range lies inside the original span and contains no delimiter byte,
the ranges are pairwise disjoint (each ends strictly before the next
starts), and every byte of the original span is either a delimiter byte
(consumed at a split) or lies in exactly one returned range.  The run is
a pure function of `(a, d)`, so the resulting set of sub-ranges is the
same on every run. -/
theorem chunk_token_partition (a : ByteSpan) (d : Nat → Bool) :
    (∀ t ∈ tokenList a d, t.buf = a.buf ∧ a.s ≤ t.s ∧ t.s ≤ t.e ∧ t.e ≤ a.e ∧
      ∀ j, t.s ≤ j → j < t.e → d (byteAt a.buf j) = false) ∧
    List.Pairwise (fun t u => t.e < u.s) (tokenList a d) ∧
    (∀ j, a.s ≤ j → j < a.e →
      d (byteAt a.buf j) = true ∨ ∃ t ∈ tokenList a d, t.s ≤ j ∧ j < t.e) :=
  tokenListN_props d (a.e - a.s + 1) a (by omega)

/-- Witness for C2 at the whole-buffer span `"a,b"` with delimiter
`{','}`: the tokens are `"a"` and `"b"`, and byte 0 (`a`) is covered by
a returned range while byte 1 (`,`) is a consumed delimiter. -/
theorem chunk_token_partition_witness :
    tokenList (strSpan "a,b") commaSet = [⟨strBytes "a,b", 0, 1⟩, ⟨strBytes "a,b", 2, 3⟩] ∧
    (commaSet (byteAt (strSpan "a,b").buf 0) = true ∨
      ∃ t ∈ tokenList (strSpan "a,b") commaSet, t.s ≤ 0 ∧ 0 < t.e) :=
  ⟨by decide,
    (chunk_token_partition (strSpan "a,b") commaSet).2.2 0 (by decide) (by decide)⟩

/-- The span `"1e2"` (exponent form). -/
def numSpanExp : ByteSpan := strSpan "1e2"

/-- The span `"1em"` (unit-suffix form). -/
def numSpanUnit : ByteSpan := strSpan "1em"

/-- C3: `scanNumber` treats `e` followed by a digit as an exponent but
`e` followed by `m` (or `x`) as the start of a unit suffix: on `"1e2"`
the captured number chunk is the whole `"1e2"` and `chunk_to_double`
yields `100`; on `"1em"` the captured chunk is just `"1"` (value `1`)
and the returned remainder begins at `"em"`. -/
theorem scanNumber_unit_disambiguation :
    spanBytes (scanNumber numSpanExp).2 = strBytes "1e2" ∧
    (chunk_to_double (scanNumber numSpanExp).2).1 = 100 ∧
    spanBytes (scanNumber numSpanExp).1 = [] ∧
    spanBytes (scanNumber numSpanUnit).2 = strBytes "1" ∧
    (chunk_to_double (scanNumber numSpanUnit).2).1 = 1 ∧
    spanBytes (scanNumber numSpanUnit).1 = strBytes "em" := by
  decide

/-- The XML input of claim C4. -/
def xmlSample : ByteSpan := strSpan "<a x=\"1\"><b/>text</a>"

/-- An input whose only content run is pure whitespace. -/
def xmlWsSample : ByteSpan := strSpan "<a>  \n </a>"

/-- C4 (evaluation at the claim's input, exhibiting the divergence): the
iterator yields exactly four elements — Start with name `a` and
attribute map `{x ↦ "1"}`, SelfClosing, Content with data `text`, End
with name `a` — but the SelfClosing element's name is `"b/"`, not `"b"`:
`scanTagName` only stops at whitespace, so the trailing slash of a
no-space self-closing tag is included in the name.  A content run
consisting only of whitespace is skipped silently: `<a>  \n </a>` yields
just the Start and End elements, no Content element. -/
theorem xml_scan_sample_eval :
    (scanXml xmlSample).map
      (fun el => (el.fElementKind, el.fName,
                  el.fAttributes.map (fun p => (p.1, spanBytes p.2)),
                  spanBytes el.fData)) =
    [(XML_ELEMENT_TYPE_START_TAG, strBytes "a", [(strBytes "x", strBytes "1")], strBytes " x=\"1\""),
     (XML_ELEMENT_TYPE_SELF_CLOSING, strBytes "b/", [], []),
     (XML_ELEMENT_TYPE_CONTENT, [], [], strBytes "text"),
     (XML_ELEMENT_TYPE_END_TAG, strBytes "a", [], [])] ∧
    (scanXml xmlWsSample).map (fun el => (el.fElementKind, el.fName)) =
      [(XML_ELEMENT_TYPE_START_TAG, strBytes "a"),
       (XML_ELEMENT_TYPE_END_TAG, strBytes "a")] := by
  exact ⟨by decide, by decide⟩

/-- The DOCTYPE input of claim C5, with an internal subset containing a
`>`. -/
def doctypeSample : ByteSpan := strSpan "<!DOCTYPE foo [ <!ENTITY a \"b\"> ]>"

/-- C5: scanning `<!DOCTYPE foo [ <!ENTITY a "b"> ]>` yields a single
Doctype element whose data runs through the `]` closing the internal
subset (the `>` inside the subset does not truncate it), and the scan
resumes past the final `>` (the iterator's cursor ends at the end of the
input). -/
theorem xml_doctype_internal_subset :
    (scanXml doctypeSample).map (fun el => (el.fElementKind, spanBytes el.fData)) =
      [(XML_ELEMENT_TYPE_DOCTYPE, strBytes "!DOCTYPE foo [ <!ENTITY a \"b\"> ]")] ∧
    (scannerNext (nextFuel ⟨0, doctypeSample, doctypeSample⟩)
        ⟨0, doctypeSample, doctypeSample⟩).2.fSource.s = doctypeSample.e := by
  decide

/-- The path string `"M10"` (move with a single number). -/
def pathSampleShort : ByteSpan := strSpan "M10"

/-- The path string `"M10,20L30,40 50,60"`. -/
def pathSampleLong : ByteSpan := strSpan "M10,20L30,40 50,60"

/-- C6: tokenizing `"M10"` yields one `M` segment with a single number,
which the builder rejects (fewer than 2 numbers), producing zero drawing
primitives; tokenizing `"M10,20L30,40 50,60"` yields `M[10,20]` and
`L[30,40,50,60]`, which the builder turns into exactly
`moveTo(10,20)`, `lineTo(30,40)`, `lineTo(50,60)` — the extra pair in
the `L` segment becomes a second `lineTo` by the implicit-repeat rule. -/
theorem pathbuilder_arity_and_implicit_repeat :
    tokenizePathF pathSampleShort = .ok [⟨77, [10]⟩] ∧
    parseCommands [⟨77, [10]⟩] = [] ∧
    tokenizePathF pathSampleLong = .ok [⟨77, [10, 20]⟩, ⟨76, [30, 40, 50, 60]⟩] ∧
    parseCommands [⟨77, [10, 20]⟩, ⟨76, [30, 40, 50, 60]⟩] =
      [.moveTo 10 20, .lineTo 30 40, .lineTo 50 60] := by
  decide

/-- The unknown color name of claim C9. -/
def bogusColorSpan : ByteSpan := strSpan "bogus-name"

/-- C9: a color name absent from the named-color table falls back to
mid-gray `(128,128,128)` (alpha 255) instead of raising, and the 3-digit
hex form `#abc` parses to exactly the same color as `#aabbcc`, each
one-digit channel `h` expanding to `h * 17`. -/
theorem color_fallback_and_hex_doubling :
    (∀ (colors : List (List Nat × Rgba32)) (chunk : ByteSpan),
      colorLookup colors (spanBytes chunk) = none →
      parseColorName colors chunk = ⟨128, 128, 128, 255⟩) ∧
    parseColorHex (strSpan "#abc") = parseColorHex (strSpan "#aabbcc") ∧
    parseColorHex (strSpan "#abc") = ⟨10 * 17, 11 * 17, 12 * 17, 255⟩ := by
  refine ⟨?_, by decide, by decide⟩
  intro colors chunk h
  simp [parseColorName, h]

/-- Witness for C9 at the empty table and the name `"bogus-name"`. -/
theorem color_fallback_and_hex_doubling_witness :
    colorLookup [] (spanBytes bogusColorSpan) = none ∧
    parseColorName [] bogusColorSpan = ⟨128, 128, 128, 255⟩ :=
  ⟨by decide,
    (color_fallback_and_hex_doubling).1 [] bogusColorSpan (by decide)⟩

end Svg2b2d

namespace Svg2b2d

/-- The transform loop is the fold of its recognised entries: a `matrix`
entry replaces the running transform, any other entry left-multiplies
it. -/
theorem loadTransformLoop_eq_fold (trig : Trig) :
    ∀ n (s : ByteSpan) (m : Matrix2D),
      loadTransformLoop trig n s m =
        (transformEntriesLoop trig n s).foldl
          (fun acc entry => if entry.1 then entry.2 else acc.transform entry.2) m := by
  intro n
  induction n with
  | zero => intro s m; rfl
  | succ n ih =>
    intro s m
    simp only [loadTransformLoop, transformEntriesLoop]
    by_cases hT : s.isTrue
    · simp only [hT, Bool.not_true, Bool.false_eq_true, if_false]
      cases hscan : scanTransformEntry trig (chunk_skip_wsp s) with
      | none => exact ih _ m
      | some pr => simp only [List.foldl_cons]; exact ih _ _
    · simp [hT]

/-- The transform-list input used to exhibit the `matrix` divergence. -/
def transformMatrixSpan : ByteSpan := strSpan "translate(10,0) matrix(1,0,0,1,0,0)"

/-- C8 (counterexample to the claim as stated): on the list
`translate(10,0) matrix(1,0,0,1,0,0)`, left-multiplying EVERY recognised
entry in encounter order (`specLeftMultiply`, the composition rule the
claim describes) maps `(1,0)` to `(11,0)`, but the code
(`loadTransform`) maps `(1,0)` to `(1,0)`: `SVGTransform::loadSelfFromChunk`
ASSIGNS `fTransform = tm` for a `matrix` entry instead of multiplying,
discarding the earlier translate. -/
theorem transform_matrix_entry_counterexample :
    (specLeftMultiply (transformEntries zeroTrig transformMatrixSpan)).mapPoint (1, 0) = (11, 0) ∧
    (loadTransform zeroTrig transformMatrixSpan).mapPoint (1, 0) = (1, 0) ∧
    ¬ loadTransform zeroTrig transformMatrixSpan =
        specLeftMultiply (transformEntries zeroTrig transformMatrixSpan) := by
  decide

/-- The transform-list input of the claim's concrete test. -/
def translateScaleSpan : ByteSpan := strSpan "translate(10,0) scale(2)"

/-- C8 (amended): every recognised transform-list entry EXCEPT
`matrix(...)` is, after argument defaulting, left-multiplied onto the
running transform in encounter order; a `matrix(...)` entry instead
replaces the running transform.  In particular
`translate(10,0) scale(2)` produces a transform mapping `(1,0)` to
`(12,0)`. -/
theorem transform_compose_spec :
    (∀ (trig : Trig) (inChunk : ByteSpan),
      loadTransform trig inChunk = codeCompose (transformEntries trig inChunk)) ∧
    (loadTransform zeroTrig translateScaleSpan).mapPoint (1, 0) = (12, 0) := by
  refine ⟨?_, by decide⟩
  intro trig inChunk
  exact loadTransformLoop_eq_fold trig (inChunk.e - inChunk.s + 2) inChunk Matrix2D.identity

end Svg2b2d

namespace Svg2b2d

/-! ### Bounds for the bounded scan loops -/

theorem skipWhileN_ge (buf : List Nat) (p : Nat → Bool) :
    ∀ n i, i ≤ skipWhileN buf p n i := by
  intro n
  induction n with
  | zero => intro i; simp [skipWhileN]
  | succ n ih =>
    intro i
    simp only [skipWhileN]
    split
    · exact Nat.le_trans (Nat.le_succ i) (ih (i + 1))
    · exact Nat.le_refl i

theorem skipWhileN_le (buf : List Nat) (p : Nat → Bool) :
    ∀ n i, skipWhileN buf p n i ≤ i + n := by
  intro n
  induction n with
  | zero => intro i; simp [skipWhileN]
  | succ n ih =>
    intro i
    simp only [skipWhileN]
    split
    · have := ih (i + 1); omega
    · omega

theorem skipWhileN_sat (buf : List Nat) (p : Nat → Bool) :
    ∀ n i j, i ≤ j → j < skipWhileN buf p n i → p (byteAt buf j) = true := by
  intro n
  induction n with
  | zero => intro i j h1 h2; simp [skipWhileN] at h2; omega
  | succ n ih =>
    intro i j h1 h2
    simp only [skipWhileN] at h2
    by_cases hp : p (byteAt buf i)
    · simp [hp] at h2
      rcases Nat.eq_or_lt_of_le h1 with rfl | hlt
      · exact hp
      · exact ih (i + 1) j hlt h2
    · simp [hp] at h2; omega

theorem skipWhileN_stop (buf : List Nat) (p : Nat → Bool) :
    ∀ n i, skipWhileN buf p n i < i + n → p (byteAt buf (skipWhileN buf p n i)) = false := by
  intro n
  induction n with
  | zero => intro i h; simp [skipWhileN] at h
  | succ n ih =>
    intro i h
    simp only [skipWhileN] at h ⊢
    by_cases hp : p (byteAt buf i)
    · simp [hp] at h ⊢
      exact ih (i + 1) (by omega)
    · simp [hp]

/-! ### Span-shape facts: left trims and single steps keep the buffer
and the end, and move the start monotonically within bounds. -/

theorem chunk_ltrim_buf (a : ByteSpan) (p : Nat → Bool) : (chunk_ltrim a p).buf = a.buf := rfl

theorem chunk_ltrim_e (a : ByteSpan) (p : Nat → Bool) : (chunk_ltrim a p).e = a.e := rfl

theorem chunk_ltrim_ge (a : ByteSpan) (p : Nat → Bool) : a.s ≤ (chunk_ltrim a p).s :=
  skipWhileN_ge a.buf p (a.e - a.s) a.s

theorem chunk_ltrim_le (a : ByteSpan) (p : Nat → Bool) (h : a.s ≤ a.e) :
    (chunk_ltrim a p).s ≤ a.e := by
  have := skipWhileN_le a.buf p (a.e - a.s) a.s
  simp only [chunk_ltrim]
  omega

theorem chunk_ltrim_sat (a : ByteSpan) (p : Nat → Bool) :
    ∀ j, a.s ≤ j → j < (chunk_ltrim a p).s → p (byteAt a.buf j) = true :=
  fun j h1 h2 => skipWhileN_sat a.buf p (a.e - a.s) a.s j h1 h2

theorem chunk_ltrim_stop (a : ByteSpan) (p : Nat → Bool) (h : a.s ≤ a.e)
    (hlt : (chunk_ltrim a p).s < a.e) : p (byteAt a.buf (chunk_ltrim a p).s) = false :=
  skipWhileN_stop a.buf p (a.e - a.s) a.s
    (by have hs : (chunk_ltrim a p).s = skipWhileN a.buf p (a.e - a.s) a.s := rfl; omega)

theorem ByteSpan.inc_buf (a : ByteSpan) : a.inc.buf = a.buf := rfl

theorem ByteSpan.inc_e (a : ByteSpan) : a.inc.e = a.e := rfl

theorem ByteSpan.inc_ge (a : ByteSpan) : a.s ≤ a.inc.s := by
  simp [ByteSpan.inc, ByteSpan.skip]

theorem ByteSpan.inc_s_of_lt (a : ByteSpan) (h : a.s < a.e) : a.inc.s = a.s + 1 := by
  simp only [ByteSpan.inc, ByteSpan.skip, ByteSpan.szT]
  have h1 : a.s ≤ a.e := Nat.le_of_lt h
  rw [if_pos h1]
  omega

theorem ByteSpan.inc_le (a : ByteSpan) (h : a.s ≤ a.e) : a.inc.s ≤ a.e := by
  simp only [ByteSpan.inc, ByteSpan.skip, ByteSpan.szT, if_pos h]
  omega

/-! ### The `scanNumber` phases keep the buffer and end, never move the
cursor backwards or past the end, and consume at least one byte when the
input starts with a number-leading character. -/

theorem scanSignPhase_buf (s : ByteSpan) : (scanSignPhase s).buf = s.buf := by
  simp only [scanSignPhase]; split <;> rfl

theorem scanSignPhase_e (s : ByteSpan) : (scanSignPhase s).e = s.e := by
  simp only [scanSignPhase]; split <;> rfl

theorem scanSignPhase_ge (s : ByteSpan) : s.s ≤ (scanSignPhase s).s := by
  simp only [scanSignPhase]; split
  · exact s.inc_ge
  · exact Nat.le_refl _

theorem scanSignPhase_le (s : ByteSpan) (h : s.s ≤ s.e) : (scanSignPhase s).s ≤ s.e := by
  simp only [scanSignPhase]; split
  · exact s.inc_le h
  · exact h

theorem scanDigitsPhase_buf (s : ByteSpan) : (scanDigitsPhase s).buf = s.buf := rfl

theorem scanDigitsPhase_e (s : ByteSpan) : (scanDigitsPhase s).e = s.e := rfl

theorem scanDigitsPhase_ge (s : ByteSpan) : s.s ≤ (scanDigitsPhase s).s :=
  chunk_ltrim_ge s digitChars

theorem scanDigitsPhase_le (s : ByteSpan) (h : s.s ≤ s.e) : (scanDigitsPhase s).s ≤ s.e :=
  chunk_ltrim_le s digitChars h

theorem scanFracPhase_buf (s : ByteSpan) : (scanFracPhase s).buf = s.buf := by
  simp only [scanFracPhase]; split
  · rw [scanDigitsPhase_buf, ByteSpan.inc_buf]
  · rfl

theorem scanFracPhase_e (s : ByteSpan) : (scanFracPhase s).e = s.e := by
  simp only [scanFracPhase]; split
  · rw [scanDigitsPhase_e, ByteSpan.inc_e]
  · rfl

theorem scanFracPhase_ge (s : ByteSpan) : s.s ≤ (scanFracPhase s).s := by
  simp only [scanFracPhase]; split
  · exact Nat.le_trans s.inc_ge (scanDigitsPhase_ge _)
  · exact Nat.le_refl _

theorem scanFracPhase_le (s : ByteSpan) (h : s.s ≤ s.e) : (scanFracPhase s).s ≤ s.e := by
  simp only [scanFracPhase]; split
  · have h1 := s.inc_le h
    have h2 := scanDigitsPhase_le s.inc (by rw [ByteSpan.inc_e]; exact h1)
    rw [ByteSpan.inc_e] at h2
    exact h2
  · exact h

theorem scanExpPhase_buf (s : ByteSpan) : (scanExpPhase s).buf = s.buf := by
  simp only [scanExpPhase]; split
  · rw [scanDigitsPhase_buf, scanSignPhase_buf, ByteSpan.inc_buf]
  · rfl

theorem scanExpPhase_e (s : ByteSpan) : (scanExpPhase s).e = s.e := by
  simp only [scanExpPhase]; split
  · rw [scanDigitsPhase_e, scanSignPhase_e, ByteSpan.inc_e]
  · rfl

theorem scanExpPhase_ge (s : ByteSpan) : s.s ≤ (scanExpPhase s).s := by
  simp only [scanExpPhase]; split
  · exact Nat.le_trans s.inc_ge
      (Nat.le_trans (scanSignPhase_ge _) (scanDigitsPhase_ge _))
  · exact Nat.le_refl _

theorem scanExpPhase_le (s : ByteSpan) (h : s.s ≤ s.e) : (scanExpPhase s).s ≤ s.e := by
  simp only [scanExpPhase]; split
  · have h1 := s.inc_le h
    have h2 := scanSignPhase_le s.inc (by rw [ByteSpan.inc_e]; exact h1)
    rw [ByteSpan.inc_e] at h2
    have h3 := scanDigitsPhase_le (scanSignPhase s.inc)
      (by rw [scanSignPhase_e, ByteSpan.inc_e]; exact h2)
    rw [scanSignPhase_e, ByteSpan.inc_e] at h3
    exact h3
  · exact h

theorem scanNumber_buf (s : ByteSpan) : (scanNumber s).1.buf = s.buf := by
  simp only [scanNumber]
  rw [scanExpPhase_buf, scanFracPhase_buf, scanDigitsPhase_buf, scanSignPhase_buf]

theorem scanNumber_e (s : ByteSpan) : (scanNumber s).1.e = s.e := by
  simp only [scanNumber]
  rw [scanExpPhase_e, scanFracPhase_e, scanDigitsPhase_e, scanSignPhase_e]

theorem scanNumber_ge (s : ByteSpan) : s.s ≤ (scanNumber s).1.s := by
  simp only [scanNumber]
  exact Nat.le_trans (scanSignPhase_ge s)
    (Nat.le_trans (scanDigitsPhase_ge _)
      (Nat.le_trans (scanFracPhase_ge _) (scanExpPhase_ge _)))

theorem scanNumber_le (s : ByteSpan) (h : s.s ≤ s.e) : (scanNumber s).1.s ≤ s.e := by
  simp only [scanNumber]
  have h1 := scanSignPhase_le s h
  have h2 := scanDigitsPhase_le (scanSignPhase s) (by rw [scanSignPhase_e]; exact h1)
  rw [scanSignPhase_e] at h2
  have h3 := scanFracPhase_le (scanDigitsPhase (scanSignPhase s))
    (by rw [scanDigitsPhase_e, scanSignPhase_e]; exact h2)
  rw [scanDigitsPhase_e, scanSignPhase_e] at h3
  have h4 := scanExpPhase_le (scanFracPhase (scanDigitsPhase (scanSignPhase s)))
    (by rw [scanFracPhase_e, scanDigitsPhase_e, scanSignPhase_e]; exact h3)
  rw [scanFracPhase_e, scanDigitsPhase_e, scanSignPhase_e] at h4
  exact h4

end Svg2b2d

namespace Svg2b2d

theorem skipWhileN_progress (buf : List Nat) (p : Nat → Bool) (n i : Nat)
    (hp : p (byteAt buf i) = true) (hn : 0 < n) : i + 1 ≤ skipWhileN buf p n i := by
  cases n with
  | zero => omega
  | succ m =>
    simp only [skipWhileN, hp, if_true]
    exact skipWhileN_ge buf p m (i + 1)

theorem skipWhileN_id (buf : List Nat) (p : Nat → Bool) (n i : Nat)
    (hp : p (byteAt buf i) = false) : skipWhileN buf p n i = i := by
  cases n with
  | zero => rfl
  | succ m => simp [skipWhileN, hp]

/-- When positioned on a number-leading byte (digit, `.`, `+`, `-`),
`scanNumber` consumes at least that byte. -/
theorem scanNumber_progress (s : ByteSpan) (h : leadingChars s.star = true) :
    s.s < (scanNumber s).1.s := by
  have hne : s.s < s.e := by
    by_contra hc
    have hz : s.star = 0 := by simp only [ByteSpan.star]; rw [if_neg (by omega)]
    rw [hz] at h
    simp [leadingChars, digitChars] at h
  have hstar : s.star = byteAt s.buf s.s := by simp only [ByteSpan.star]; rw [if_pos hne]
  have hchain : ∀ x : ByteSpan, x.s ≤ (scanExpPhase (scanFracPhase x)).s :=
    fun x => Nat.le_trans (scanFracPhase_ge x) (scanExpPhase_ge _)
  rcases (show digitChars s.star = true ∨ s.star = 46 ∨ s.star = 43 ∨ s.star = 45 by
      simp only [leadingChars, Bool.or_eq_true, decide_eq_true_eq] at h
      tauto) with hd | h46 | h43 | h45
  · -- digit: the integer-part loop consumes it
    have hns : ¬(s.star = 43 || s.star = 45) = true := by
      simp only [digitChars, Bool.and_eq_true, decide_eq_true_eq] at hd
      simp only [Bool.or_eq_true, decide_eq_true_eq]
      omega
    have hsign : scanSignPhase s = s := by simp only [scanSignPhase, if_neg hns]
    have hdig : s.s + 1 ≤ (scanDigitsPhase s).s := by
      have : s.s + 1 ≤ skipWhileN s.buf digitChars (s.e - s.s) s.s :=
        skipWhileN_progress s.buf digitChars (s.e - s.s) s.s (by rw [← hstar]; exact hd)
          (by omega)
      exact this
    simp only [scanNumber, hsign]
    have := hchain (scanDigitsPhase s)
    omega
  · -- decimal point with no integer part: the `.` branch consumes it
    have hns : ¬(s.star = 43 || s.star = 45) = true := by
      simp only [Bool.or_eq_true, decide_eq_true_eq]
      omega
    have hsign : scanSignPhase s = s := by simp only [scanSignPhase, if_neg hns]
    have hdig : scanDigitsPhase s = s := by
      simp only [scanDigitsPhase, chunk_ltrim]
      rw [skipWhileN_id s.buf digitChars (s.e - s.s) s.s
        (by rw [← hstar, h46]; decide)]
    have hfrac : scanFracPhase s = scanDigitsPhase s.inc := by
      simp [scanFracPhase, h46]
    have hincs : s.inc.s = s.s + 1 := s.inc_s_of_lt hne
    simp only [scanNumber, hsign, hdig, hfrac]
    have h1 : s.s + 1 ≤ (scanDigitsPhase s.inc).s := by
      have := scanDigitsPhase_ge s.inc
      omega
    have := scanExpPhase_ge (scanDigitsPhase s.inc)
    omega
  · -- explicit sign: the sign branch consumes it
    have hsign : scanSignPhase s = s.inc := by
      simp only [scanSignPhase]
      rw [if_pos (by simp [h43])]
    have hincs : s.inc.s = s.s + 1 := s.inc_s_of_lt hne
    simp only [scanNumber, hsign]
    have h1 := scanDigitsPhase_ge s.inc
    have := hchain (scanDigitsPhase s.inc)
    omega
  · have hsign : scanSignPhase s = s.inc := by
      simp only [scanSignPhase]
      rw [if_pos (by simp [h45])]
    have hincs : s.inc.s = s.s + 1 := s.inc_s_of_lt hne
    simp only [scanNumber, hsign]
    have h1 := scanDigitsPhase_ge s.inc
    have := hchain (scanDigitsPhase s.inc)
    omega

end Svg2b2d

namespace Svg2b2d

theorem pathWsp_not_leading (c : Nat) (h : pathWsp c = true) : leadingChars c = false := by
  simp only [pathWsp, Bool.or_eq_true, decide_eq_true_eq] at h
  simp only [leadingChars, digitChars, Bool.or_eq_false_iff, Bool.and_eq_false_iff,
    decide_eq_false_iff_not]
  omega

theorem pathWsp_not_command (c : Nat) (h : pathWsp c = true) : commandChars c = false := by
  simp only [pathWsp, Bool.or_eq_true, decide_eq_true_eq] at h
  simp only [commandChars, Bool.or_eq_false_iff, decide_eq_false_iff_not]
  omega

end Svg2b2d

namespace Svg2b2d

/-- Formalisation of C7's precondition: whenever a number-leading byte
is the FIRST number-leading byte of the span, some command letter occurs
strictly before it. -/
def cmdBeforeFirstNumber (s : ByteSpan) : Prop :=
  ∀ i, s.s ≤ i → i < s.e → leadingChars (byteAt s.buf i) = true →
    (∀ j, s.s ≤ j → j < i → leadingChars (byteAt s.buf j) = false) →
    ∃ k, s.s ≤ k ∧ k < i ∧ commandChars (byteAt s.buf k) = true

/-- The precondition survives skipping a whitespace prefix (whitespace
bytes are neither number-leading nor command letters). -/
theorem cmdBeforeFirstNumber_ltrim (s : ByteSpan) (h : cmdBeforeFirstNumber s) :
    cmdBeforeFirstNumber (chunk_ltrim s pathWsp) := by
  intro i h1 h2 h3 h4
  have hge := chunk_ltrim_ge s pathWsp
  have h4' : ∀ j, s.s ≤ j → j < i → leadingChars (byteAt s.buf j) = false := by
    intro j hj1 hj2
    by_cases hjlt : j < (chunk_ltrim s pathWsp).s
    · exact pathWsp_not_leading _ (chunk_ltrim_sat s pathWsp j hj1 hjlt)
    · exact h4 j (by omega) hj2
  obtain ⟨k, hk1, hk2, hk3⟩ := h i (by omega) h2 h3 h4'
  refine ⟨k, ?_, hk2, hk3⟩
  by_contra hklt
  have hwsp := chunk_ltrim_sat s pathWsp k hk1 (by omega)
  rw [pathWsp_not_command _ hwsp] at hk3
  exact Bool.false_ne_true hk3

/-- Core induction for C7: as long as an empty segment vector implies
the precondition on the remaining input, the scan never reaches
`commands.back()` on an empty vector. -/
theorem tokRun_no_backErr :
    ∀ fuel (st : TokState), st.s.s ≤ st.s.e →
      (st.cmds = [] → cmdBeforeFirstNumber st.s) →
      tokRun fuel st ≠ TokRes.backErr := by
  intro fuel
  induction fuel with
  | zero => intro st _ _; simp [tokRun]
  | succ n ih =>
    intro st hWF hInv
    by_cases hT : st.s.isTrue
    · have hs1WF : (chunk_ltrim st.s pathWsp).s ≤ (chunk_ltrim st.s pathWsp).e :=
        chunk_ltrim_le st.s pathWsp hWF
      by_cases hc : commandChars (chunk_ltrim st.s pathWsp).star
      · have hstep : tokStep st =
            .next ⟨(chunk_ltrim st.s pathWsp).inc,
                   st.cmds ++ [⟨(chunk_ltrim st.s pathWsp).star, []⟩]⟩ := by
          simp [tokStep, hT, hc]
        simp only [tokRun, hstep]
        exact ih _ ((chunk_ltrim st.s pathWsp).inc_le hs1WF)
          (fun hcm => absurd hcm (by simp))
      · by_cases hl : leadingChars (chunk_ltrim st.s pathWsp).star
        · -- a number-leading byte: with an empty vector this contradicts
          -- the precondition; with a segment present the append is safe
          cases hcm : st.cmds with
          | nil =>
            exfalso
            have hpre := cmdBeforeFirstNumber_ltrim st.s (hInv hcm)
            set s1 := chunk_ltrim st.s pathWsp with hs1
            have hne : s1.s < s1.e := by
              by_contra hcon
              have hz : s1.star = 0 := by simp only [ByteSpan.star]; rw [if_neg (by omega)]
              rw [hz] at hl
              simp [leadingChars, digitChars] at hl
            have hstar : s1.star = byteAt s1.buf s1.s := by
              simp only [ByteSpan.star]; rw [if_pos hne]
            obtain ⟨k, hk1, hk2, _⟩ :=
              hpre s1.s (Nat.le_refl _) hne (by rw [← hstar]; exact hl)
                (fun j hj1 hj2 => absurd (Nat.lt_of_le_of_lt hj1 hj2) (by omega))
            omega
          | cons c cs =>
            have hWFs' : (scanNumber (chunk_ltrim st.s pathWsp)).1.s ≤
                (scanNumber (chunk_ltrim st.s pathWsp)).1.e := by
              rw [scanNumber_e]
              exact scanNumber_le _ hs1WF
            by_cases hnum : (scanNumber (chunk_ltrim st.s pathWsp)).2.isTrue
            · have hstep : tokStep st =
                  .next ⟨(scanNumber (chunk_ltrim st.s pathWsp)).1,
                         (c :: cs).dropLast ++
                           [{ (c :: cs).getLast (by simp) with
                              fNumbers := ((c :: cs).getLast (by simp)).fNumbers ++
                                [toNumber (scanNumber (chunk_ltrim st.s pathWsp)).2] }]⟩ := by
                have hgl : (c :: cs).getLast? = some ((c :: cs).getLast (by simp)) :=
                  List.getLast?_eq_getLast _ (by simp)
                simp [tokStep, hT, hc, hl, hcm, hnum, hgl]
              simp only [tokRun, hstep]
              exact ih _ hWFs' (fun hcm' => absurd hcm' (by simp))
            · have hstep : tokStep st =
                  .next ⟨(scanNumber (chunk_ltrim st.s pathWsp)).1, c :: cs⟩ := by
                simp [tokStep, hT, hc, hl, hcm, hnum]
              simp only [tokRun, hstep]
              exact ih _ hWFs' (fun hcm' => absurd hcm' (by simp))
        · -- stall byte: the cursor stops at the whitespace-trimmed
          -- position and the state repeats
          have hstep : tokStep st = .next ⟨chunk_ltrim st.s pathWsp, st.cmds⟩ := by
            simp [tokStep, hT, hc, hl]
          simp only [tokRun, hstep]
          exact ih _ hs1WF (fun hcm => cmdBeforeFirstNumber_ltrim st.s (hInv hcm))
    · have hstep : tokStep st = .done st.cmds := by simp [tokStep, hT]
      simp [tokRun, hstep]

end Svg2b2d

namespace Svg2b2d

/-- C7: in `tokenizePath`, under the precondition that a command letter
appears in the input before the first number-leading byte, the scan
never reaches `commands.back()` with an empty segment vector (the
embedding returns `TokRes.backErr` exactly at such an access, and that
outcome is unreachable for any amount of fuel). -/
theorem tokenizePath_back_safe (chunk : ByteSpan) (hWF : chunk.s ≤ chunk.e)
    (h : cmdBeforeFirstNumber chunk) :
    (∀ fuel, tokRun fuel ⟨chunk, []⟩ ≠ TokRes.backErr) ∧
    tokenizePathF chunk ≠ TokRes.backErr :=
  ⟨fun fuel => tokRun_no_backErr fuel ⟨chunk, []⟩ hWF (fun _ => h),
   tokRun_no_backErr _ ⟨chunk, []⟩ hWF (fun _ => h)⟩

/-- Witness for C7 at the concrete input `"M10"`: the command letter `M`
precedes the first digit, and the scan indeed reports no empty-vector
access. -/
theorem tokenizePath_back_safe_witness :
    (strSpan "M10").s ≤ (strSpan "M10").e ∧
    tokenizePathF (strSpan "M10") ≠ TokRes.backErr :=
  ⟨by decide,
   (tokenizePath_back_safe (strSpan "M10") (by decide) (by
      intro i h1 h2 h3 h4
      have h2' : i < 3 := h2
      interval_cases i
      · exact absurd h3 (by decide)
      · exact ⟨0, by decide, by omega, by decide⟩
      · exact absurd (h4 1 (by decide) (by omega)) (by decide))).2⟩

end Svg2b2d

namespace Svg2b2d

/-- The byte alphabet `tokenizePath` actually handles: path whitespace
(including the comma), command letters, and number-leading characters. -/
def pathAlphabet (c : Nat) : Bool := pathWsp c || commandChars c || leadingChars c

/-- Over the handled alphabet, every loop iteration that continues
strictly advances the cursor (and never moves it past the end). -/
theorem tokStep_next_progress (st st' : TokState) (hWF : st.s.s ≤ st.s.e)
    (halpha : ∀ j, st.s.s ≤ j → j < st.s.e → pathAlphabet (byteAt st.s.buf j) = true)
    (hstep : tokStep st = .next st') :
    st'.s.buf = st.s.buf ∧ st'.s.e = st.s.e ∧ st.s.s < st'.s.s ∧ st'.s.s ≤ st.s.e := by
  by_cases hT : st.s.isTrue
  · have hT' : st.s.s < st.s.e := by simpa [ByteSpan.isTrue] using hT
    have hs1WF : (chunk_ltrim st.s pathWsp).s ≤ (chunk_ltrim st.s pathWsp).e :=
      chunk_ltrim_le st.s pathWsp hWF
    have hs1ge : st.s.s ≤ (chunk_ltrim st.s pathWsp).s := chunk_ltrim_ge _ _
    by_cases hc : commandChars (chunk_ltrim st.s pathWsp).star
    · have hne : (chunk_ltrim st.s pathWsp).s < (chunk_ltrim st.s pathWsp).e := by
        by_contra hcon
        have hz : (chunk_ltrim st.s pathWsp).star = 0 := by
          simp only [ByteSpan.star]; rw [if_neg (by omega)]
        rw [hz] at hc
        simp [commandChars] at hc
      simp only [tokStep, hT, Bool.not_true, Bool.false_eq_true, if_false, hc, if_true] at hstep
      obtain rfl := (TokOut.next.injEq _ _).mp hstep.symm
      have hinc := (chunk_ltrim st.s pathWsp).inc_s_of_lt hne
      have he1 : (chunk_ltrim st.s pathWsp).e = st.s.e := rfl
      refine ⟨rfl, rfl, ?_, ?_⟩
      · exact (by omega : st.s.s < (chunk_ltrim st.s pathWsp).inc.s)
      · have := (chunk_ltrim st.s pathWsp).inc_le hs1WF
        exact (by omega : (chunk_ltrim st.s pathWsp).inc.s ≤ st.s.e)
    · by_cases hl : leadingChars (chunk_ltrim st.s pathWsp).star
      · have hprog := scanNumber_progress (chunk_ltrim st.s pathWsp) hl
        have hsle := scanNumber_le (chunk_ltrim st.s pathWsp) hs1WF
        have hsb := scanNumber_buf (chunk_ltrim st.s pathWsp)
        have hse := scanNumber_e (chunk_ltrim st.s pathWsp)
        simp only [tokStep, hT, Bool.not_true, Bool.false_eq_true, if_false, hc, hl,
          if_true] at hstep
        by_cases hnum : (scanNumber (chunk_ltrim st.s pathWsp)).2.isTrue
        · simp only [hnum, if_true] at hstep
          cases hgl : st.cmds.getLast? with
          | none => rw [hgl] at hstep; exact absurd hstep (by simp)
          | some last =>
            rw [hgl] at hstep
            obtain rfl := (TokOut.next.injEq _ _).mp hstep.symm
            have he1 : (chunk_ltrim st.s pathWsp).e = st.s.e := rfl
            refine ⟨hsb, ?_, ?_, ?_⟩
            · exact hse.trans he1
            · exact (by omega : st.s.s < (scanNumber (chunk_ltrim st.s pathWsp)).1.s)
            · exact (by omega : (scanNumber (chunk_ltrim st.s pathWsp)).1.s ≤ st.s.e)
        · simp only [hnum, Bool.false_eq_true, if_false] at hstep
          obtain rfl := (TokOut.next.injEq _ _).mp hstep.symm
          have he1 : (chunk_ltrim st.s pathWsp).e = st.s.e := rfl
          refine ⟨hsb, ?_, ?_, ?_⟩
          · exact hse.trans he1
          · exact (by omega : st.s.s < (scanNumber (chunk_ltrim st.s pathWsp)).1.s)
          · exact (by omega : (scanNumber (chunk_ltrim st.s pathWsp)).1.s ≤ st.s.e)
      · -- neither branch: only possible here when the whitespace skip
        -- consumed the whole remainder (otherwise the stopping byte
        -- would be outside the handled alphabet)
        simp only [tokStep, hT, Bool.not_true, Bool.false_eq_true, if_false, hc, hl,
          if_true] at hstep
        obtain rfl := (TokOut.next.injEq _ _).mp hstep.symm
        by_cases hne : (chunk_ltrim st.s pathWsp).s < (chunk_ltrim st.s pathWsp).e
        · exfalso
          have hstop : pathWsp (byteAt st.s.buf (chunk_ltrim st.s pathWsp).s) = false :=
            chunk_ltrim_stop st.s pathWsp hWF hne
          have hstar : (chunk_ltrim st.s pathWsp).star =
              byteAt st.s.buf (chunk_ltrim st.s pathWsp).s := by
            simp only [ByteSpan.star]
            rw [if_pos hne]
            rfl
          have halj := halpha (chunk_ltrim st.s pathWsp).s (by omega) (by exact hne)
          rw [pathAlphabet, hstop] at halj
          rw [hstar] at hc hl
          simp only [Bool.false_or, Bool.or_eq_true] at halj
          rcases halj with h | h
          · exact hc h
          · exact hl h
        · have he1 : (chunk_ltrim st.s pathWsp).e = st.s.e := rfl
          refine ⟨rfl, rfl, ?_, ?_⟩
          · exact (by omega : st.s.s < (chunk_ltrim st.s pathWsp).s)
          · exact (by omega : (chunk_ltrim st.s pathWsp).s ≤ st.s.e)
  · simp [tokStep, hT] at hstep

/-- With fuel exceeding the span size, the scan over the handled
alphabet finishes (it never runs out of fuel). -/
theorem tokRun_enough_fuel :
    ∀ fuel (st : TokState), st.s.s ≤ st.s.e →
      (∀ j, st.s.s ≤ j → j < st.s.e → pathAlphabet (byteAt st.s.buf j) = true) →
      st.s.e - st.s.s < fuel →
      tokRun fuel st ≠ TokRes.fuelOut := by
  intro fuel
  induction fuel with
  | zero => intro st _ _ h; omega
  | succ n ih =>
    intro st hWF halpha hm
    cases hstep : tokStep st with
    | done cs => simp [tokRun, hstep]
    | backErr => simp [tokRun, hstep]
    | next st' =>
      obtain ⟨hb, he, hlt, hle⟩ := tokStep_next_progress st st' hWF halpha hstep
      simp only [tokRun, hstep]
      apply ih st' (by omega)
      · intro j hj1 hj2
        rw [hb]
        exact halpha j (by omega) (by omega)
      · omega

end Svg2b2d

namespace Svg2b2d

/-- A one-byte input whose byte (`(`) is outside the alphabet the scan
loop handles. -/
def stallSpan : ByteSpan := strSpan "("

/-- C10 (counterexample to the claim as stated): on the input `"("`
(whose byte is none of whitespace/comma, a command letter, or a
number-leading character) the loop body maps its state to exactly the
same state while the loop guard still holds — the iteration does NOT
advance the cursor and the scan never terminates; with any bounded fuel
the run reports fuel exhaustion. -/
theorem tokenizePath_stall_counterexample :
    stallSpan.isTrue = true ∧
    tokStep ⟨stallSpan, []⟩ = TokOut.next ⟨stallSpan, []⟩ ∧
    tokenizePathF stallSpan = TokRes.fuelOut := by
  decide

/-- C10 (amended): `tokenizePath` terminates on every finite input all
of whose bytes are path whitespace (including commas), command letters,
or number-leading characters: over that alphabet every continuing
iteration strictly advances the cursor, so any fuel exceeding the span
size completes the scan; on any byte outside that alphabet the loop
stalls forever (see the counterexample). -/
theorem tokenizePath_terminates_on_path_alphabet (chunk : ByteSpan)
    (hWF : chunk.s ≤ chunk.e)
    (halpha : ∀ j, chunk.s ≤ j → j < chunk.e → pathAlphabet (byteAt chunk.buf j) = true) :
    (∀ (st' : TokState), tokStep ⟨chunk, []⟩ = .next st' → chunk.s < st'.s.s) ∧
    (∀ fuel, chunk.e - chunk.s < fuel → tokRun fuel ⟨chunk, []⟩ ≠ TokRes.fuelOut) ∧
    tokenizePathF chunk ≠ TokRes.fuelOut :=
  ⟨fun st' hstep => (tokStep_next_progress ⟨chunk, []⟩ st' hWF halpha hstep).2.2.1,
   fun fuel hf => tokRun_enough_fuel fuel ⟨chunk, []⟩ hWF halpha hf,
   tokRun_enough_fuel _ ⟨chunk, []⟩ hWF halpha
     ((by omega : chunk.e - chunk.s < chunk.e - chunk.s + 2) :
       (⟨chunk, []⟩ : TokState).s.e - (⟨chunk, []⟩ : TokState).s.s < chunk.e - chunk.s + 2)⟩

/-- Witness for C10's amended theorem at the input `"M10"`, whose bytes
are all in the handled alphabet. -/
theorem tokenizePath_terminates_witness :
    (strSpan "M10").s ≤ (strSpan "M10").e ∧
    tokenizePathF (strSpan "M10") ≠ TokRes.fuelOut :=
  ⟨by decide,
   (tokenizePath_terminates_on_path_alphabet (strSpan "M10") (by decide) (by
      intro j h1 h2
      have h2' : j < 3 := h2
      interval_cases j <;> decide)).2.2⟩

end Svg2b2d
